import Mathlib

/-!
Verification of the USD currency-conversion skill against its specification.

The development shallowly embeds the two pipelines of the repository:

* the query pipeline of skill/scripts/convert.py (loading is abstracted as an
  in-memory archive; dates are Python date objects, represented by their
  proleptic-Gregorian ordinal; rates are Python floats, represented as exact
  rationals),
* the ingestion pipeline of .github/workflows/scripts/fetch_all.py and the three
  source parsers under .github/workflows/scripts/sources/ (remote payloads are
  abstracted as the strings or rows handed to the parsing code; Python dicts are
  association lists with insertion-order iteration and overwrite-on-assignment).

Definitions are translated from the source files; each embedding definition
carries a doc comment naming the function and lines it embeds.
-/

/-! ### Character and string utilities

Python string processing is embedded by structurally recursive functions over
the character list of a string, so that every definition evaluates inside the
kernel. -/

/-- The whitespace characters removed by Python str.strip with no argument. -/
def isSpaceChar (c : Char) : Bool :=
  c = ' ' || c = '\t' || c = '\n' || c = '\r' || c = '\x0b' || c = '\x0c'

/-- Models Python str.strip: drop whitespace at both ends. -/
def trimChars (cs : List Char) : List Char :=
  ((cs.dropWhile isSpaceChar).reverse.dropWhile isSpaceChar).reverse

/-- str.strip on a string. -/
def strTrim (s : String) : String := String.mk (trimChars s.data)

/-- Worker for splitting on a single separator character. -/
def splitOnAux (sep : Char) : List Char → List Char → List (List Char)
  | [], acc => [acc.reverse]
  | c :: cs, acc =>
      if c = sep then acc.reverse :: splitOnAux sep cs []
      else splitOnAux sep cs (c :: acc)

/-- Models Python str.split with a one-character separator. -/
def splitOnChar (sep : Char) (cs : List Char) : List (List Char) := splitOnAux sep cs []

/-- str.split on a string, producing strings. -/
def strSplitOn (s : String) (sep : Char) : List String :=
  (splitOnChar sep s.data).map String.mk

/-- Numeric value of a decimal digit character. -/
def digitVal (c : Char) : Nat := c.toNat - 48

/-- All characters are decimal digits. -/
def allDigits (cs : List Char) : Bool := cs.all Char.isDigit

/-- Value of a digit string, most significant first. -/
def digitsToNat (cs : List Char) : Nat := cs.foldl (fun a c => a * 10 + digitVal c) 0

/-- Models the numeric fields of strptime: a nonempty all-digit string of length
at most two (the %d and %m fields accept one or two digits). -/
def parseNum1to2 (s : String) : Option Nat :=
  if s.data.length = 1 || s.data.length = 2 then
    if allDigits s.data then some (digitsToNat s.data) else none
  else none

/-- Models the %Y field of strptime on four-digit years. -/
def parseNum4 (s : String) : Option Nat :=
  if s.data.length = 4 && allDigits s.data then some (digitsToNat s.data) else none

/-- Sign prefix of a numeric literal. -/
def parseSign : List Char → (Int × List Char)
  | '-' :: cs => (-1, cs)
  | '+' :: cs => (1, cs)
  | cs => (1, cs)

/-- Models Python float() restricted to plain decimal literals, the only shape
occurring in the feeds: optional sign, integer digits, optional point and
fraction digits.  The value is kept exact as a rational. -/
def parseFloat (s : String) : Option ℚ :=
  let p := parseSign (trimChars s.data)
  match splitOnChar '.' p.2 with
  | [ip] =>
      if ip.isEmpty then none
      else if allDigits ip then some (mkRat (p.1 * Int.ofNat (digitsToNat ip)) 1) else none
  | [ip, fp] =>
      if ip.isEmpty && fp.isEmpty then none
      else if allDigits ip && allDigits fp then
        some (mkRat (p.1 * Int.ofNat (digitsToNat ip * 10 ^ fp.length + digitsToNat fp))
          (10 ^ fp.length))
      else none
  | _ => none

/-- Code-point comparison of characters, as Python compares strings. -/
def charListLe : List Char → List Char → Bool
  | [], _ => true
  | _ :: _, [] => false
  | a :: as, b :: bs =>
      if a.toNat < b.toNat then true
      else if a.toNat = b.toNat then charListLe as bs
      else false

/-- Lexicographic code-point order on strings; models the order used by Python
sorted() on strings. -/
def strLe (a b : String) : Bool := charListLe a.data b.data

/-- The order used by sorted() on strings, as a relation. -/
def strRel : String → String → Prop := fun a b => strLe a b = true

instance : DecidableRel strRel := fun a b => Bool.decEq (strLe a b) true

/-- Models Python sorted() on a list of strings. -/
def sortStrings (l : List String) : List String := List.insertionSort strRel l

/-- Models Python sorted() on a list of date ordinals. -/
def sortedInts (l : List Int) : List Int := List.insertionSort (· ≤ ·) l

/-- Models str.join with a comma-space separator, as used for the available
currency list in error messages. -/
def joinComma (l : List String) : String := String.join (l.intersperse ", ")

/-! ### Calendar dates

Python date objects are in bijection with their proleptic-Gregorian ordinal
(date.toordinal); date arithmetic with timedelta is ordinal arithmetic.  The
converter therefore works on ordinals, while the parsers work on calendar
triples and normalize them to ISO strings. -/

/-- Gregorian leap-year rule. -/
def isLeap (y : Nat) : Bool := y % 4 = 0 && (y % 100 != 0 || y % 400 = 0)

/-- Length of a month. -/
def monthLength (y m : Nat) : Nat :=
  match m with
  | 1 => 31
  | 2 => if isLeap y then 29 else 28
  | 3 => 31
  | 4 => 30
  | 5 => 31
  | 6 => 30
  | 7 => 31
  | 8 => 31
  | 9 => 30
  | 10 => 31
  | 11 => 30
  | 12 => 31
  | _ => 0

/-- Days in year y before month m. -/
def daysBeforeMonth (y m : Nat) : Nat :=
  let base :=
    match m with
    | 1 => 0
    | 2 => 31
    | 3 => 59
    | 4 => 90
    | 5 => 120
    | 6 => 151
    | 7 => 181
    | 8 => 212
    | 9 => 243
    | 10 => 273
    | 11 => 304
    | 12 => 334
    | _ => 365
  if 3 ≤ m && isLeap y then base + 1 else base

/-- A calendar date as parsed from the feeds. -/
structure CalDate where
  year : Nat
  month : Nat
  day : Nat
deriving DecidableEq

/-- The date is a real calendar date (what datetime.strptime validates). -/
def CalDate.valid (d : CalDate) : Bool :=
  1 ≤ d.year && 1 ≤ d.month && d.month ≤ 12 && 1 ≤ d.day && d.day ≤ monthLength d.year d.month

/-- Models Python date.toordinal: day number in the proleptic Gregorian
calendar with 0001-01-01 mapped to 1. -/
def toOrdinal (d : CalDate) : Int :=
  Int.ofNat (365 * (d.year - 1) + (d.year - 1) / 4 - (d.year - 1) / 100 + (d.year - 1) / 400
    + daysBeforeMonth d.year d.month + d.day)

/-- Two decimal digits, zero padded. -/
def pad2 (n : Nat) : List Char := [Nat.digitChar (n / 10 % 10), Nat.digitChar (n % 10)]

/-- Four decimal digits, zero padded. -/
def pad4 (n : Nat) : List Char :=
  [Nat.digitChar (n / 1000 % 10), Nat.digitChar (n / 100 % 10),
   Nat.digitChar (n / 10 % 10), Nat.digitChar (n % 10)]

/-- Models strftime with the year-month-day format (equally date.isoformat) for
years up to 9999: the canonical zero-padded ISO representation. -/
def isoformat (d : CalDate) : String :=
  String.mk (pad4 d.year ++ ['-'] ++ pad2 d.month ++ ['-'] ++ pad2 d.day)

/-! ### Python dict operations

Python dicts appear as association lists in insertion order with unique keys;
assignment overwrites in place, and a double-unpacking merge updates a copy of
the first dict with every item of the second. -/

/-- Python dict assignment on an association list: overwrite the value at an
existing key in place, otherwise append the new pair at the end. -/
def dictInsert {α : Type} (l : List (String × α)) (k : String) (v : α) : List (String × α) :=
  if (l.lookup k).isSome then l.map (fun p => if p.1 = k then (k, v) else p)
  else l ++ [(k, v)]

/-- The Python dict merge of two dicts by double unpacking, and equally
dict.update: every item of the second dict is assigned into a copy of the
first, so on a key collision the second dict wins. -/
def dictMerge {α : Type} (e i : List (String × α)) : List (String × α) :=
  i.foldl (fun acc p => dictInsert acc p.1 p.2) e

/-! ### Query pipeline: skill/scripts/convert.py -/

/-- One currency's in-memory rates: date ordinal mapped to rate, modelling the
per-currency dict from dates to floats built by load. -/
abbrev Ledger := List (Int × ℚ)

/-- The loaded archive: currency code mapped to ledger, modelling
self.exchange_rates. -/
abbrev Archive := List (String × Ledger)

/-- The bank-to-currency table of CurrencyConverter (convert.py lines 21-25). -/
def BANK_TO_CURRENCY : List (String × String) := [("ECB", "EUR"), ("NBP", "PLN"), ("RBA", "AUD")]

/-- The bank-code recovery in the empty-ledger branch of convert (convert.py
line 160): first bank whose currency matches, else the currency itself. -/
def bank_code_for (currency : String) : String :=
  match (BANK_TO_CURRENCY.filter (fun p => p.2 == currency)).head? with
  | some p => p.1
  | none => currency

/-- The ASCII lowercase-to-uppercase letter table. -/
def upPairs : List (Char × Char) :=
  [('a', 'A'), ('b', 'B'), ('c', 'C'), ('d', 'D'), ('e', 'E'), ('f', 'F'), ('g', 'G'),
   ('h', 'H'), ('i', 'I'), ('j', 'J'), ('k', 'K'), ('l', 'L'), ('m', 'M'), ('n', 'N'),
   ('o', 'O'), ('p', 'P'), ('q', 'Q'), ('r', 'R'), ('s', 'S'), ('t', 'T'), ('u', 'U'),
   ('v', 'V'), ('w', 'W'), ('x', 'X'), ('y', 'Y'), ('z', 'Z')]

/-- ASCII uppercase of one character, modelling str.upper on the ASCII
alphabet (currency codes are ASCII in this program). -/
def upChar (c : Char) : Char := (upPairs.lookup c).getD c

/-- The ASCII uppercase-to-lowercase letter table. -/
def lowPairs : List (Char × Char) := upPairs.map (fun p => (p.2, p.1))

/-- ASCII lowercase of one character, used to model the case-insensitive month
matching of strptime. -/
def lowChar (c : Char) : Char := (lowPairs.lookup c).getD c

/-- Models str.upper (ASCII model), applied to the requested currency code at
convert.py line 145. -/
def supper (s : String) : String := String.mk (s.data.map upChar)

/-- The backward scan of _find_rate_for_date: try the dates target minus k for
the given offsets k in order, returning the first hit (convert.py lines
126-130). -/
def search_back (rates : Ledger) (target : Int) : List Nat → Option (ℚ × Int)
  | [] => none
  | k :: ks =>
      match rates.lookup (target - (k : Int)) with
      | some r => some (r, target - (k : Int))
      | none => search_back rates target ks

/-- Embeds CurrencyConverter._find_rate_for_date (convert.py lines 101-131):
exact date first, then a backward scan over offsets 1..30. -/
def find_rate_for_date (archive : Archive) (currency : String) (target : Int) :
    Option (ℚ × Int) :=
  match archive.lookup currency with
  | none => none
  | some rates =>
      if rates.isEmpty then none
      else
        match rates.lookup target with
        | some r => some (r, target)
        | none => search_back rates target (List.range' 1 30)

/-- sorted(rates.keys()), the date list used for earliest/latest and the
currency listing. -/
def sorted_dates (rates : Ledger) : List Int := sortedInts (rates.map Prod.fst)

/-- The result dict of CurrencyConverter.convert, one variant per distinct
shape returned (convert.py lines 150-204).  The two date-boundary errors carry
the structured requested/earliest/latest fields of the Python dict; their
message text interpolates the same dates and is not repeated here. -/
inductive ConvResult where
  | unknownCurrency (error : String) (available_currencies : List String)
      (requested_currency : String)
  | noData (error : String) (currency : String)
  | notFoundEarly (requested_date : Int) (earliest_date : Int) (currency : String)
  | notFoundLate (requested_date : Int) (latest_date : Int) (currency : String)
  | success (amount_usd : ℚ) (converted_amount : ℚ) (currency : String) (rate : ℚ)
      (rate_date : Int) (requested_date : Int)
deriving DecidableEq

/-- Models Python round(x, 2) under exact rational arithmetic: round half to
even at two decimal places.  The Python code applies round to a binary float
product; this exact model is used only as the definite value of the success
field. -/
def round2 (q : ℚ) : ℚ :=
  let s : ℚ := q * 100
  let f : Int := ⌊s⌋
  let r : ℚ := s - (f : ℚ)
  let n : Int :=
    if r < 1 / 2 then f
    else if 1 / 2 < r then f + 1
    else if f % 2 = 0 then f else f + 1
  (n : ℚ) / 100

/-- Embeds CurrencyConverter.convert (convert.py lines 133-204): uppercase the
requested code, report unknown currency with the sorted available list, report
a configured-but-empty ledger naming the expected rates directory, otherwise
resolve and classify a failed resolution against the earliest known date. -/
def convert (archive : Archive) (amount_usd : ℚ) (target_currency : String)
    (conversion_date : Int) : ConvResult :=
  let currency := supper target_currency
  match archive.lookup currency with
  | none =>
      let available := sortStrings (archive.map Prod.fst)
      ConvResult.unknownCurrency
        ((("Currency " ++ target_currency) ++ " not supported. Available currencies: ")
          ++ joinComma available)
        available target_currency
  | some rates =>
      if rates.isEmpty then
        ConvResult.noData
          (((("Currency " ++ currency) ++ " is configured but has no rate data. Please check rates/")
            ++ bank_code_for currency) ++ "/ directory")
          currency
      else
        match find_rate_for_date archive currency conversion_date with
        | some p =>
            ConvResult.success amount_usd (round2 (amount_usd * p.1)) currency p.1 p.2
              conversion_date
        | none =>
            let all_dates := sorted_dates rates
            let earliest := all_dates.headI
            let latest := all_dates.getLastD 0
            if conversion_date < earliest then
              ConvResult.notFoundEarly conversion_date earliest currency
            else
              ConvResult.notFoundLate conversion_date latest currency

/-- Embeds CurrencyConverter.get_available_currencies (convert.py lines 81-99):
currency mapped to earliest date, latest date and total day count; currencies
with an empty ledger are skipped. -/
def get_available_currencies (archive : Archive) : List (String × (Int × Int × Nat)) :=
  archive.filterMap (fun p =>
    if p.2.isEmpty then none
    else some (p.1, ((sorted_dates p.2).headI, (sorted_dates p.2).getLastD 0,
      (sorted_dates p.2).length)))

/-- The classification tag of a conversion result, for comparing outcomes. -/
def resultKind : ConvResult → Nat
  | ConvResult.unknownCurrency _ _ _ => 0
  | ConvResult.noData _ _ => 1
  | ConvResult.notFoundEarly _ _ _ => 2
  | ConvResult.notFoundLate _ _ _ => 3
  | ConvResult.success _ _ _ _ _ _ => 4

/-- The rate used by a successful conversion. -/
def resultRate : ConvResult → Option ℚ
  | ConvResult.success _ _ _ r _ _ => some r
  | _ => none

/-- The converted amount of a successful conversion. -/
def resultAmount : ConvResult → Option ℚ
  | ConvResult.success _ a _ _ _ _ => some a
  | _ => none

/-- The currency code reported by a successful conversion. -/
def resultCurrency : ConvResult → Option String
  | ConvResult.success _ _ c _ _ _ => some c
  | _ => none

/-! ### Ingestion pipeline: .github/workflows/scripts/fetch_all.py -/

/-- A stored rate record as held by fetch_all: the rate field keeps the decimal
text of the stored float (fetch_all parses it with float() and writes it back
with the default formatting; its numeric value is never otherwise used), plus
the quote direction tag. -/
structure StoredRec where
  rate : String
  direction : String
deriving DecidableEq

/-- The merge of previously stored rates with freshly fetched rates performed
at fetch_all.py line 153: a dict built from all items of existing followed by
all items of new, so the incoming dict overwrites on a shared date key. -/
def mergeRates (existing incoming : List (String × StoredRec)) : List (String × StoredRec) :=
  dictMerge existing incoming

/-- Appends an entry into the dict at one year key, keeping year insertion
order; fresh years are appended at the end. -/
def insertYear (acc : List (String × List (String × StoredRec))) (y : String)
    (p : String × StoredRec) : List (String × List (String × StoredRec)) :=
  match acc with
  | [] => [(y, [p])]
  | q :: rest => if q.1 = y then (q.1, q.2 ++ [p]) :: rest else q :: insertYear rest y p

/-- Embeds the year-grouping loop of save_rates_by_year (fetch_all.py lines
68-73): each record is filed under the first four characters of its date
string. -/
def groupByYear (rates : List (String × StoredRec)) :
    List (String × List (String × StoredRec)) :=
  rates.foldl (fun acc p => insertYear acc (String.mk (p.1.data.take 4)) p) []

/-- One written CSV row (fetch_all.py line 92). -/
def csvRow (d : String) (r : StoredRec) : String :=
  ((((d ++ ",") ++ r.rate) ++ ",") ++ r.direction) ++ "\n"

/-- The full byte content written for one year partition (fetch_all.py lines
87-92): the fixed header then one row per date in ascending date order. -/
def yearFile (year_rates : List (String × StoredRec)) : String :=
  "date,rate,direction\n" ++
    String.join ((sortStrings (year_rates.map Prod.fst)).map (fun d =>
      csvRow d ((year_rates.lookup d).getD (StoredRec.mk "" ""))))

/-- Embeds save_rates_by_year (fetch_all.py lines 63-98): the mapping from year
to the partition file content rewritten in full for that year. -/
def save_rates_by_year (rates : List (String × StoredRec)) : List (String × String) :=
  (groupByYear rates).map (fun p => (p.1, yearFile p.2))

/-! ### Source parsers: .github/workflows/scripts/sources/ -/

/-- Quote direction of NBPSource (nbp.py line 23). -/
def NBP_DIRECTION : String := "USD_TO_PLN"

/-- Quote direction of ECBSource (ecb.py line 27). -/
def ECB_DIRECTION : String := "EUR_TO_USD"

/-- Quote direction of RBASource (rba.py line 32). -/
def RBA_DIRECTION : String := "AUD_TO_USD"

/-- A parsed rate record as produced by the three fetch_rates parsers. -/
structure ParsedRec where
  rate : ℚ
  direction : String
deriving DecidableEq

/-- Models datetime.strptime with the compact year-month-day format used by
NBP: an eight-digit string whose fields form a valid calendar date. -/
def parseYYYYMMDD (s : String) : Option CalDate :=
  let cs := s.data
  if cs.length = 8 && allDigits cs then
    let d : CalDate := CalDate.mk (digitsToNat (cs.take 4)) (digitsToNat ((cs.drop 4).take 2))
      (digitsToNat (cs.drop 6))
    if d.valid then some d else none
  else none

/-- Embeds the per-line parse inside NBPSource._fetch_year (nbp.py lines
78-107): skip blank lines, split on semicolons, need at least three fields,
parse the compact date in field 0 and the comma-decimal rate in field 2,
dropping the line on any failure. -/
def nbp_parse_line (line : String) : Option (String × ParsedRec) :=
  if strTrim line = "" then none
  else
    match strSplitOn line ';' with
    | p0 :: _ :: p2 :: _ =>
        match parseYYYYMMDD (strTrim p0) with
        | none => none
        | some d =>
            match parseFloat (String.mk ((strTrim p2).data.map
                (fun c => if c = ',' then '.' else c))) with
            | none => none
            | some r => some (isoformat d, ParsedRec.mk r NBP_DIRECTION)
    | _ => none

/-- Embeds NBPSource._fetch_year on a fetched yearly CSV body (nbp.py lines
64-109): strip the content, drop the header line, and fold the surviving rows
into the rates dict. -/
def nbp_fetch_year (content : String) : List (String × ParsedRec) :=
  ((strSplitOn (strTrim content) '\n').drop 1).foldl (fun acc line =>
    match nbp_parse_line line with
    | none => acc
    | some p => dictInsert acc p.1 p.2) []

/-- Embeds NBPSource.fetch_rates (nbp.py lines 25-62): the start year is
clamped to 2012, each year in the inclusive range is fetched and parsed, and
the yearly results are merged by dict update.  The remote yearly files are
abstracted as a function from year to raw body; a year whose fetch raises is
equivalent to one whose body parses to nothing. -/
def nbp_fetch_rates (contents : Nat → String) (start_year end_year : Nat) :
    List (String × ParsedRec) :=
  let s := if start_year < 2012 then 2012 else start_year
  (List.range' s (end_year + 1 - s)).foldl
    (fun acc y => dictMerge acc (nbp_fetch_year (contents y))) []

/-- One csv.DictReader row of the ECB historical CSV, giving the Date and USD
column fields (ecb.py lines 77-90). -/
structure EcbRow where
  dateField : String
  usdField : String

/-- Month number of a three-letter English abbreviation, matched
case-insensitively as strptime does for its month-name field. -/
def monthAbbrNum (s : String) : Option Nat :=
  let t := String.mk (s.data.map lowChar)
  if t = "jan" then some 1
  else if t = "feb" then some 2
  else if t = "mar" then some 3
  else if t = "apr" then some 4
  else if t = "may" then some 5
  else if t = "jun" then some 6
  else if t = "jul" then some 7
  else if t = "aug" then some 8
  else if t = "sep" then some 9
  else if t = "oct" then some 10
  else if t = "nov" then some 11
  else if t = "dec" then some 12
  else none

/-- strptime with day/month/year separated by slashes. -/
def parse_dmy_slash (s : String) : Option CalDate :=
  match strSplitOn s '/' with
  | [ds, ms, ys] =>
      match parseNum1to2 ds, parseNum1to2 ms, parseNum4 ys with
      | some d, some m, some y =>
          let c : CalDate := CalDate.mk y m d
          if c.valid then some c else none
      | _, _, _ => none
  | _ => none

/-- strptime with month/day/year separated by slashes. -/
def parse_mdy_slash (s : String) : Option CalDate :=
  match strSplitOn s '/' with
  | [ms, ds, ys] =>
      match parseNum1to2 ds, parseNum1to2 ms, parseNum4 ys with
      | some d, some m, some y =>
          let c : CalDate := CalDate.mk y m d
          if c.valid then some c else none
      | _, _, _ => none
  | _ => none

/-- strptime with day, abbreviated month name and year separated by dashes. -/
def parse_dby_dash (s : String) : Option CalDate :=
  match strSplitOn s '-' with
  | [ds, bs, ys] =>
      match parseNum1to2 ds, monthAbbrNum bs, parseNum4 ys with
      | some d, some m, some y =>
          let c : CalDate := CalDate.mk y m d
          if c.valid then some c else none
      | _, _, _ => none
  | _ => none

/-- strptime with year/month/day separated by dashes. -/
def parse_ymd_dash (s : String) : Option CalDate :=
  match strSplitOn s '-' with
  | [ys, ms, ds] =>
      match parseNum4 ys, parseNum1to2 ms, parseNum1to2 ds with
      | some y, some m, some d =>
          let c : CalDate := CalDate.mk y m d
          if c.valid then some c else none
      | _, _, _ => none
  | _ => none

/-- Embeds ECBSource._parse_date (ecb.py lines 110-125): the four date formats
tried in their fixed priority order, first successful parse wins. -/
def ecb_parse_date (s : String) : Option CalDate :=
  (parse_dmy_slash s).orElse (fun _ =>
    (parse_mdy_slash s).orElse (fun _ =>
      (parse_dby_dash s).orElse (fun _ => parse_ymd_dash s)))

/-- Embeds the row loop of ECBSource._parse_csv (ecb.py lines 70-108): skip
blank or unparseable dates, filter the parsed year to the inclusive caller
range, skip blank or sentinel USD fields, parse the rate and file the record
under the normalized date string. -/
def ecb_parse_csv (rows : List EcbRow) (start_year end_year : Nat) :
    List (String × ParsedRec) :=
  rows.foldl (fun acc row =>
    let date_str := strTrim row.dateField
    if date_str = "" then acc
    else
      match ecb_parse_date date_str with
      | none => acc
      | some d =>
          if start_year ≤ d.year && d.year ≤ end_year then
            let usd := strTrim row.usdField
            if usd = "" || usd = "N/A" then acc
            else
              match parseFloat usd with
              | none => acc
              | some r => dictInsert acc (isoformat d) (ParsedRec.mk r ECB_DIRECTION)
          else acc) []

/-- One spreadsheet cell as seen by the RBA row loop after pandas loads the
workbook: missing, a string, an already-parsed timestamp (carried as its calendar
date), or a number. -/
inductive RbaCell where
  | na
  | str (s : String)
  | ts (d : CalDate)
  | num (q : ℚ)
deriving DecidableEq

/-- One row of the RBA sheet after column resolution: its date cell and its
USD rate cell (rba.py lines 106-141). -/
structure RbaRow where
  dateCell : RbaCell
  rateCell : RbaCell

/-- Models the date-cell handling of RBASource._fetch_range (rba.py lines
108-118): missing cells skip the row, strings are parsed with the
day-month-name-year format, timestamps are used directly.  The pandas
to_datetime fallback for other cell types is not modelled; such a cell skips
the row, which only removes emissions. -/
def rba_parse_date_cell : RbaCell → Option CalDate
  | RbaCell.na => none
  | RbaCell.str s => parse_dby_dash s
  | RbaCell.ts d => some d
  | RbaCell.num _ => none

/-- Models the rate-cell handling of RBASource._fetch_range (rba.py lines
123-127): missing cells skip the row, floats pass through, strings go through
float(). -/
def rba_rate_val : RbaCell → Option ℚ
  | RbaCell.na => none
  | RbaCell.num q => some q
  | RbaCell.str s => parseFloat s
  | RbaCell.ts _ => none

/-- Embeds the row loop of RBASource._fetch_range (rba.py lines 106-141): rows
with an unusable date are skipped, the parsed year is filtered to the inclusive
caller range, rows with an unusable rate are skipped, and surviving records are
filed under the normalized date string. -/
def rba_fetch_range (rows : List RbaRow) (start_year end_year : Nat) :
    List (String × ParsedRec) :=
  rows.foldl (fun acc row =>
    match rba_parse_date_cell row.dateCell with
    | none => acc
    | some d =>
        if start_year ≤ d.year && d.year ≤ end_year then
          match rba_rate_val row.rateCell with
          | none => acc
          | some r => dictInsert acc (isoformat d) (ParsedRec.mk r RBA_DIRECTION)
        else acc) []

/-! ### Concrete inputs used by witnesses and counterexamples -/

/-- C2: an archive whose PLN ledger has a single rate on 2024-01-01. -/
def c2Archive : Archive := [("PLN", [(toOrdinal (CalDate.mk 2024 1 1), (4 : ℚ))])]

/-- C3: EUR covered on 2020-01-01 and 2025-01-01 with a five-year gap. -/
def c3Archive : Archive :=
  [("EUR", [(toOrdinal (CalDate.mk 2020 1 1), (1 : ℚ)),
            (toOrdinal (CalDate.mk 2025 1 1), (1 : ℚ))])]

/-- C3 witness: PLN covered on a single date. -/
def c3wArchive : Archive := [("PLN", [(toOrdinal (CalDate.mk 2024 1 1), (4 : ℚ))])]

/-- C1: stored ledger with one validated rate. -/
def c1Existing : List (String × StoredRec) :=
  [("2024-03-01", StoredRec.mk "1.10" "USD_TO_PLN")]

/-- C1: a refetch of the same date with a different rate. -/
def c1Incoming : List (String × StoredRec) :=
  [("2024-03-01", StoredRec.mk "9.99" "USD_TO_PLN")]

/-- C4: an archive with one configured but empty currency. -/
def c4Archive : Archive := [("EUR", [])]

/-- C6: a fetched NBP yearly body whose data row carries a date from another
year. -/
def c6BadContent : String := "data;x;y\n20231231;3;4,50"

/-- C6 witness row for the ECB parser. -/
def c6EcbRows : List EcbRow := [EcbRow.mk "15/06/2022" "1.05"]

/-- C7: a two-year ledger listed in one insertion order. -/
def c7RatesA : List (String × StoredRec) :=
  [("2024-03-02", StoredRec.mk "2.0" "USD_TO_PLN"),
   ("2023-01-05", StoredRec.mk "3.0" "USD_TO_PLN"),
   ("2024-03-01", StoredRec.mk "1.0" "USD_TO_PLN")]

/-- C7: the same ledger in a different insertion order. -/
def c7RatesB : List (String × StoredRec) :=
  [("2024-03-01", StoredRec.mk "1.0" "USD_TO_PLN"),
   ("2024-03-02", StoredRec.mk "2.0" "USD_TO_PLN"),
   ("2023-01-05", StoredRec.mk "3.0" "USD_TO_PLN")]

/-- C8: a ledger with one rate on one date. -/
def c8First : List (String × StoredRec) := [("2024-03-01", StoredRec.mk "1.0" "D")]

/-- C8: a second record set disagreeing with the first on its only date. -/
def c8Second : List (String × StoredRec) := [("2024-03-01", StoredRec.mk "2.0" "D")]

/-- C8 witness: a record set disjoint from the first. -/
def c8Third : List (String × StoredRec) := [("2024-03-05", StoredRec.mk "3.0" "D")]

/-- C10: an archive with a loaded-but-empty currency next to a populated one. -/
def c10Archive : Archive := [("EUR", []), ("PLN", [(5, (1 : ℚ)), (3, (2 : ℚ))])]

/-! ### Order facts for the string sort -/

theorem charListLe_total : ∀ as bs : List Char, charListLe as bs = true ∨ charListLe bs as = true := by
  intro as
  induction as with
  | nil => intro bs; left; rfl
  | cons a as ih =>
      intro bs
      cases bs with
      | nil => right; rfl
      | cons b bs =>
          simp only [charListLe]
          rcases Nat.lt_trichotomy a.toNat b.toNat with h | h | h
          · left; simp [h]
          · rcases ih bs with h2 | h2
            · left; simp [h, h2]
            · right; simp [h.symm, h2]
          · right; simp [h]

theorem charListLe_trans : ∀ as bs cs : List Char,
    charListLe as bs = true → charListLe bs cs = true → charListLe as cs = true := by
  intro as
  induction as with
  | nil => intro bs cs _ _; rfl
  | cons a as ih =>
      intro bs cs h1 h2
      cases bs with
      | nil => simp [charListLe] at h1
      | cons b bs =>
          cases cs with
          | nil => simp [charListLe] at h2
          | cons c cs =>
              simp only [charListLe] at h1 h2 ⊢
              by_cases hab : a.toNat < b.toNat
              · by_cases hbc : b.toNat < c.toNat
                · simp [show a.toNat < c.toNat by omega]
                · simp [hbc] at h2
                  rcases h2 with ⟨hbe, _⟩
                  simp [show a.toNat < c.toNat by omega]
              · simp [hab] at h1
                rcases h1 with ⟨hae, h1⟩
                by_cases hbc : b.toNat < c.toNat
                · simp [show a.toNat < c.toNat by omega]
                · simp [hbc] at h2
                  rcases h2 with ⟨hbe, h2⟩
                  have hac : ¬ a.toNat < c.toNat := by omega
                  simp [hac, show a.toNat = c.toNat by omega]
                  exact ih bs cs h1 h2

theorem char_toNat_inj : ∀ {c d : Char}, c.toNat = d.toNat → c = d := by
  intro c d h
  cases c with
  | mk u hu =>
      cases d with
      | mk v hv =>
          have : u = v := UInt32.ext h
          subst this
          rfl

theorem charListLe_antisymm : ∀ as bs : List Char,
    charListLe as bs = true → charListLe bs as = true → as = bs := by
  intro as
  induction as with
  | nil =>
      intro bs _ h2
      cases bs with
      | nil => rfl
      | cons b bs => simp [charListLe] at h2
  | cons a as ih =>
      intro bs h1 h2
      cases bs with
      | nil => simp [charListLe] at h1
      | cons b bs =>
          simp only [charListLe] at h1 h2
          by_cases hab : a.toNat < b.toNat
          · have : ¬ b.toNat < a.toNat := by omega
            simp [this, show ¬ b.toNat = a.toNat by omega] at h2
          · simp [hab] at h1
            rcases h1 with ⟨hae, h1⟩
            simp [show ¬ b.toNat < a.toNat by omega, hae.symm] at h2
            have heq : a = b := char_toNat_inj hae
            rw [heq, ih bs h1 h2]

instance : IsTotal String strRel :=
  ⟨fun a b => charListLe_total a.data b.data⟩

instance : IsTrans String strRel :=
  ⟨fun a b c h1 h2 => charListLe_trans a.data b.data c.data h1 h2⟩

instance : IsAntisymm String strRel := by
  constructor
  intro a b h1 h2
  cases a with
  | mk la =>
      cases b with
      | mk lb =>
          have : la = lb := charListLe_antisymm la lb h1 h2
          rw [this]

theorem sortStrings_sorted (l : List String) : List.Sorted strRel (sortStrings l) :=
  List.sorted_insertionSort strRel l

theorem sortStrings_perm (l : List String) : (sortStrings l).Perm l :=
  List.perm_insertionSort strRel l

theorem sortStrings_eq_of_perm {l₁ l₂ : List String} (h : l₁.Perm l₂) :
    sortStrings l₁ = sortStrings l₂ :=
  List.eq_of_perm_of_sorted
    (((sortStrings_perm l₁).trans h).trans (sortStrings_perm l₂).symm)
    (sortStrings_sorted l₁) (sortStrings_sorted l₂)

/-! ### Uppercasing is idempotent -/

theorem lookup_mem {α β : Type} [BEq α] [LawfulBEq α] (l : List (α × β)) (k : α) (v : β)
    (h : List.lookup k l = some v) : (k, v) ∈ l := by
  induction l with
  | nil => simp [List.lookup] at h
  | cons p l ih =>
      rw [List.lookup] at h
      by_cases hk : k == p.1
      · simp [hk] at h
        have hk2 : k = p.1 := by exact eq_of_beq hk
        have : (k, v) = p := by
          rw [hk2, ← h]
        rw [this]
        exact List.mem_cons_self p l

      · simp [hk] at h
        right
        exact ih h

theorem upChar_idem (c : Char) : upChar (upChar c) = upChar c := by
  unfold upChar
  cases h : upPairs.lookup c with
  | none => simp [h]
  | some u =>
      have hm : (c, u) ∈ upPairs := lookup_mem _ _ _ h
      have hu : u ∈ upPairs.map Prod.snd := List.mem_map_of_mem Prod.snd hm
      simp only [upPairs, List.map, List.mem_cons, List.not_mem_nil, or_false] at hu
      simp only [h, Option.getD_some]
      rcases hu with rfl | rfl | rfl | rfl | rfl | rfl | rfl | rfl | rfl | rfl | rfl | rfl |
        rfl | rfl | rfl | rfl | rfl | rfl | rfl | rfl | rfl | rfl | rfl | rfl | rfl | rfl <;>
        decide

theorem supper_idem (s : String) : supper (supper s) = supper s := by
  cases s with
  | mk l =>
      simp only [supper, List.map_map]
      congr 1
      apply List.map_congr_left
      intro c _
      exact upChar_idem c

/-! ### Dict lemmas -/

theorem lookup_cons {α : Type} (k : String) (v : α) (l : List (String × α)) (k' : String) :
    ((k, v) :: l).lookup k' = if k' = k then some v else l.lookup k' := by
  by_cases h : k' = k
  · subst h
    simp [List.lookup]
  · have hb : (k' == k) = false := beq_eq_false_iff_ne.mpr h
    simp [List.lookup, hb, h]

theorem lookup_eq_none_iff {α : Type} (l : List (String × α)) (k : String) :
    l.lookup k = none ↔ k ∉ l.map Prod.fst := by
  induction l with
  | nil => simp [List.lookup]
  | cons p l ih =>
      obtain ⟨a, b⟩ := p
      rw [lookup_cons]
      by_cases h : k = a
      · simp [h]
      · simp [h, ih]

theorem lookup_replace_self {α : Type} (l : List (String × α)) (k : String) (v : α)
    (h : (l.lookup k).isSome) :
    (l.map (fun p => if p.1 = k then (k, v) else p)).lookup k = some v := by
  induction l with
  | nil => simp [List.lookup] at h
  | cons p l ih =>
      obtain ⟨a, b⟩ := p
      by_cases ha : a = k
      · have hmap : ((a, b) :: l).map (fun p => if p.1 = k then (k, v) else p) =
            (k, v) :: l.map (fun p => if p.1 = k then (k, v) else p) := by
          simp [ha]
        rw [hmap, lookup_cons, if_pos rfl]
      · have hmap : ((a, b) :: l).map (fun p => if p.1 = k then (k, v) else p) =
            (a, b) :: l.map (fun p => if p.1 = k then (k, v) else p) := by
          simp [ha]
        have hka : ¬ k = a := fun he => ha he.symm
        rw [lookup_cons, if_neg hka] at h
        rw [hmap, lookup_cons, if_neg hka]
        exact ih h

theorem lookup_replace_other {α : Type} (l : List (String × α)) (k : String) (v : α)
    (k' : String) (h : k' ≠ k) :
    (l.map (fun p => if p.1 = k then (k, v) else p)).lookup k' = l.lookup k' := by
  induction l with
  | nil => simp
  | cons p l ih =>
      obtain ⟨a, b⟩ := p
      by_cases ha : a = k
      · have hmap : ((a, b) :: l).map (fun p => if p.1 = k then (k, v) else p) =
            (k, v) :: l.map (fun p => if p.1 = k then (k, v) else p) := by
          simp [ha]
        have hka : ¬ k' = a := fun he => h (he.trans ha)
        rw [hmap, lookup_cons, if_neg h, lookup_cons, if_neg hka]
        exact ih
      · have hmap : ((a, b) :: l).map (fun p => if p.1 = k then (k, v) else p) =
            (a, b) :: l.map (fun p => if p.1 = k then (k, v) else p) := by
          simp [ha]
        rw [hmap, lookup_cons, lookup_cons]
        by_cases hk : k' = a
        · rw [if_pos hk, if_pos hk]
        · rw [if_neg hk, if_neg hk]
          exact ih

theorem dictInsert_lookup {α : Type} (l : List (String × α)) (k : String) (v : α)
    (k' : String) :
    (dictInsert l k v).lookup k' = if k' = k then some v else l.lookup k' := by
  unfold dictInsert
  by_cases hs : (l.lookup k).isSome
  · rw [if_pos hs]
    by_cases hk : k' = k
    · subst hk
      rw [if_pos rfl]
      exact lookup_replace_self l k' v hs
    · rw [if_neg hk]
      exact lookup_replace_other l k v k' hk
  · rw [if_neg hs]
    rw [List.lookup_append]
    have hnone : l.lookup k = none := by
      cases hc : l.lookup k
      · rfl
      · rw [hc] at hs
        simp at hs
    by_cases hk : k' = k
    · subst hk
      rw [hnone, lookup_cons, if_pos rfl]
      simp [Option.or]
    · rw [lookup_cons, if_neg hk, if_neg hk]
      cases hc : l.lookup k' <;> simp [List.lookup]

theorem dictMerge_lookup {α : Type} (e i : List (String × α))
    (hi : (i.map Prod.fst).Nodup) (k : String) :
    (dictMerge e i).lookup k = (i.lookup k).or (e.lookup k) := by
  induction i generalizing e with
  | nil => simp [dictMerge, List.lookup]
  | cons p i ih =>
      obtain ⟨a, b⟩ := p
      simp only [List.map, List.nodup_cons] at hi
      have step : dictMerge e ((a, b) :: i) = dictMerge (dictInsert e a b) i := rfl
      rw [step, ih (dictInsert e a b) hi.2, lookup_cons, dictInsert_lookup]
      by_cases hk : k = a
      · subst hk
        have hki : i.lookup k = none := (lookup_eq_none_iff i k).mpr hi.1
        rw [hki, if_pos rfl, if_pos rfl]
        simp [Option.or]
      · rw [if_neg hk, if_neg hk]

theorem lookup_of_mem_nodup {α : Type} (l : List (String × α))
    (h : (l.map Prod.fst).Nodup) (p : String × α) (hp : p ∈ l) :
    l.lookup p.1 = some p.2 := by
  induction l with
  | nil => simp at hp
  | cons q l ih =>
      obtain ⟨a, b⟩ := q
      simp only [List.map, List.nodup_cons] at h
      rw [lookup_cons]
      rcases List.mem_cons.mp hp with hq | hq
      · rw [hq]
        simp
      · have hne : p.1 ≠ a := by
          intro he
          exact h.1 (he ▸ List.mem_map_of_mem Prod.fst hq)
        rw [if_neg hne]
        exact ih h.2 hq

theorem lookup_some_iff_mem {α : Type} (l : List (String × α))
    (h : (l.map Prod.fst).Nodup) (k : String) (v : α) :
    l.lookup k = some v ↔ (k, v) ∈ l := by
  constructor
  · intro hl
    exact lookup_mem l k v hl
  · intro hm
    exact lookup_of_mem_nodup l h (k, v) hm

theorem dictInsert_self {α : Type} (l : List (String × α))
    (h : (l.map Prod.fst).Nodup) (k : String) (v : α) (hl : l.lookup k = some v) :
    dictInsert l k v = l := by
  unfold dictInsert
  rw [if_pos (by simp [hl])]
  have hfix : ∀ p ∈ l, (if p.1 = k then (k, v) else p) = p := by
    intro p hp
    by_cases hk : p.1 = k
    · have h1 : l.lookup p.1 = some p.2 := lookup_of_mem_nodup l h p hp
      rw [hk, hl] at h1
      have h2 : v = p.2 := Option.some.inj h1
      rw [if_pos hk, ← hk, h2]
    · rw [if_neg hk]
  calc l.map (fun p => if p.1 = k then (k, v) else p) = l.map id := List.map_congr_left hfix
    _ = l := List.map_id l

theorem dictMerge_self {α : Type} (l : List (String × α))
    (h : (l.map Prod.fst).Nodup) : dictMerge l l = l := by
  have aux : ∀ i : List (String × α), (∀ p ∈ i, p ∈ l) →
      i.foldl (fun acc p => dictInsert acc p.1 p.2) l = l := by
    intro i
    induction i with
    | nil => intro _; rfl
    | cons p i ih =>
        intro hsub
        have hp : p ∈ l := hsub p (List.mem_cons_self p i)
        have hstep : dictInsert l p.1 p.2 = l :=
          dictInsert_self l h p.1 p.2 (lookup_of_mem_nodup l h p hp)
        simp only [List.foldl, hstep]
        exact ih (fun q hq => hsub q (List.mem_cons_of_mem p hq))
  exact aux l (fun p hp => hp)

theorem lookup_eq_of_perm {α : Type} (l₁ l₂ : List (String × α)) (h : l₁.Perm l₂)
    (h1 : (l₁.map Prod.fst).Nodup) (k : String) : l₁.lookup k = l₂.lookup k := by
  have hmap : (l₁.map Prod.fst).Perm (l₂.map Prod.fst) := h.map Prod.fst
  have h2 : (l₂.map Prod.fst).Nodup := hmap.nodup_iff.mp h1
  cases hv : l₁.lookup k with
  | none =>
      have hn1 : k ∉ l₁.map Prod.fst := (lookup_eq_none_iff l₁ k).mp hv
      have hn2 : k ∉ l₂.map Prod.fst := fun hm => hn1 (hmap.mem_iff.mpr hm)
      exact ((lookup_eq_none_iff l₂ k).mpr hn2).symm
  | some v =>
      have hm : (k, v) ∈ l₁ := lookup_mem l₁ k v hv
      have hm2 : (k, v) ∈ l₂ := h.mem_iff.mp hm
      exact ((lookup_some_iff_mem l₂ h2 k v).mpr hm2).symm

/-! ### Backward-scan lemmas -/

theorem search_back_none_iff (rates : Ledger) (target : Int) :
    ∀ ks : List Nat, (search_back rates target ks = none ↔
      ∀ k ∈ ks, rates.lookup (target - (k : Int)) = none) := by
  intro ks
  induction ks with
  | nil => simp [search_back]
  | cons k ks ih =>
      rw [search_back]
      cases hc : rates.lookup (target - (k : Int)) with
      | some r =>
          constructor
          · intro h
            exact absurd h (by simp)
          · intro h
            have h2 := h k (List.mem_cons_self k ks)
            rw [hc] at h2
            exact absurd h2 (by simp)
      | none =>
          constructor
          · intro h k' hk'
            rcases List.mem_cons.mp hk' with rfl | hm
            · exact hc
            · exact (ih.mp h) k' hm
          · intro h
            exact ih.mpr (fun k' hk' => h k' (List.mem_cons_of_mem k hk'))

theorem search_back_some_iff (rates : Ledger) (target : Int) :
    ∀ ks : List Nat, List.Sorted (· < ·) ks →
    ∀ p1 : ℚ, ∀ p2 : Int, (search_back rates target ks = some (p1, p2) ↔
      ((∃ k ∈ ks, target - (k : Int) = p2) ∧ rates.lookup p2 = some p1 ∧
       ∀ k ∈ ks, p2 < target - (k : Int) → rates.lookup (target - (k : Int)) = none)) := by
  intro ks
  induction ks with
  | nil =>
      intro _ p1 p2
      simp [search_back]
  | cons k ks ih =>
      intro hs p1 p2
      have hs2 : List.Sorted (· < ·) ks := (List.sorted_cons.mp hs).2
      have hlt : ∀ k' ∈ ks, k < k' := (List.sorted_cons.mp hs).1
      rw [search_back]
      cases hc : rates.lookup (target - (k : Int)) with
      | some r =>
          constructor
          · intro h
            simp only [Option.some.injEq, Prod.mk.injEq] at h
            obtain ⟨h1, h2⟩ := h
            subst h1
            subst h2
            refine ⟨⟨k, List.mem_cons_self k ks, rfl⟩, hc, ?_⟩
            intro k' hk' hlt2
            rcases List.mem_cons.mp hk' with rfl | hm
            · omega
            · have := hlt k' hm
              omega
          · rintro ⟨⟨k0, hk0, hke⟩, hlk, hmax⟩
            rcases List.mem_cons.mp hk0 with rfl | hm
            · rw [← hke, hc] at hlk
              have h1 : r = p1 := Option.some.inj hlk
              rw [h1, hke]
            · have hk0lt := hlt k0 hm
              have hplt : p2 < target - (k : Int) := by omega
              have := hmax k (List.mem_cons_self k ks) hplt
              rw [hc] at this
              exact absurd this (by simp)
      | none =>
          rw [ih hs2 p1 p2]
          constructor
          · rintro ⟨⟨k0, hk0, hke⟩, hlk, hmax⟩
            refine ⟨⟨k0, List.mem_cons_of_mem k hk0, hke⟩, hlk, ?_⟩
            intro k' hk' hl
            rcases List.mem_cons.mp hk' with rfl | hm
            · exact hc
            · exact hmax k' hm hl
          · rintro ⟨⟨k0, hk0, hke⟩, hlk, hmax⟩
            rcases List.mem_cons.mp hk0 with rfl | hm
            · rw [← hke, hc] at hlk
              exact absurd hlk (by simp)
            · exact ⟨⟨k0, hm, hke⟩, hlk,
                fun k' hk' hl => hmax k' (List.mem_cons_of_mem k hk') hl⟩

theorem range30_sorted : List.Sorted (· < ·) (List.range' 1 30) := by decide

/-! ### Sorted date-list lemmas -/

theorem sortedInts_sorted (l : List Int) : List.Sorted (· ≤ ·) (sortedInts l) :=
  List.sorted_insertionSort (· ≤ ·) l

theorem sortedInts_perm (l : List Int) : (sortedInts l).Perm l :=
  List.perm_insertionSort (· ≤ ·) l

theorem sorted_headI_min (l : List Int) (h : l ≠ []) :
    (sortedInts l).headI ∈ l ∧ ∀ x ∈ l, (sortedInts l).headI ≤ x := by
  have hs := sortedInts_sorted l
  have hp := sortedInts_perm l
  cases hsl : sortedInts l with
  | nil =>
      rw [hsl] at hp
      exact absurd (List.Perm.eq_nil hp.symm) h
  | cons a t =>
      rw [hsl] at hs hp
      simp only [List.headI]
      constructor
      · exact hp.mem_iff.mp (List.mem_cons_self a t)
      · intro x hx
        rcases List.mem_cons.mp (hp.mem_iff.mpr hx) with rfl | hm
        · exact le_refl x
        · exact (List.sorted_cons.mp hs).1 x hm

theorem getLastD_mem_of_ne_nil : ∀ (l : List Int) (d : Int), l ≠ [] → l.getLastD d ∈ l := by
  intro l
  induction l with
  | nil => intro d h; exact absurd rfl h
  | cons a t ih =>
      intro d _
      rw [List.getLastD_cons]
      cases ht : t with
      | nil => simp [List.getLastD]
      | cons b t' =>
          rw [← ht]
          have : t.getLastD a ∈ t := ih a (by rw [ht]; simp)
          exact List.mem_cons_of_mem a this

theorem sorted_le_getLastD : ∀ (l : List Int) (d : Int), List.Sorted (· ≤ ·) l →
    ∀ x ∈ l, x ≤ l.getLastD d := by
  intro l
  induction l with
  | nil => intro d _ x hx; simp at hx
  | cons a t ih =>
      intro d hs x hx
      have hpair := List.sorted_cons.mp hs
      rw [List.getLastD_cons]
      cases ht : t with
      | nil =>
          rcases List.mem_cons.mp hx with rfl | hm
          · simp [List.getLastD]
          · rw [ht] at hm
            simp at hm
      | cons b t' =>
          rw [← ht]
          rcases List.mem_cons.mp hx with heq | hm
          · have hbmem : b ∈ t := by rw [ht]; exact List.mem_cons_self b t'
            have hb : x ≤ b := heq ▸ hpair.1 b hbmem
            exact le_trans hb (ih a hpair.2 b hbmem)
          · exact ih a hpair.2 x hm

theorem sorted_dates_min (rates : Ledger) (h : rates ≠ []) :
    (sorted_dates rates).headI ∈ rates.map Prod.fst ∧
      ∀ x ∈ rates.map Prod.fst, (sorted_dates rates).headI ≤ x := by
  have hne : rates.map Prod.fst ≠ [] := by
    cases rates with
    | nil => exact absurd rfl h
    | cons p l => simp
  exact sorted_headI_min (rates.map Prod.fst) hne

theorem sorted_dates_max (rates : Ledger) (h : rates ≠ []) :
    (sorted_dates rates).getLastD 0 ∈ rates.map Prod.fst ∧
      ∀ x ∈ rates.map Prod.fst, x ≤ (sorted_dates rates).getLastD 0 := by
  have hne : rates.map Prod.fst ≠ [] := by
    cases rates with
    | nil => exact absurd rfl h
    | cons p l => simp
  have hp := sortedInts_perm (rates.map Prod.fst)
  have hs := sortedInts_sorted (rates.map Prod.fst)
  have hsne : sortedInts (rates.map Prod.fst) ≠ [] := by
    intro he
    rw [he] at hp
    exact hne (List.Perm.eq_nil hp.symm)
  constructor
  · exact hp.mem_iff.mp (getLastD_mem_of_ne_nil _ 0 hsne)
  · intro x hx
    exact sorted_le_getLastD _ 0 hs x (hp.mem_iff.mpr hx)

/-! ### C2: point-in-time rate resolution -/

theorem find_rate_reduce (archive : Archive) (cur : String) (L : Ledger) (t : Int)
    (hlook : archive.lookup cur = some L) (hne : L ≠ []) :
    find_rate_for_date archive cur t =
      match L.lookup t with
      | some r => some (r, t)
      | none => search_back L t (List.range' 1 30) := by
  have hfalse : L.isEmpty = false := by
    cases L with
    | nil => exact absurd rfl hne
    | cons a l => rfl
  unfold find_rate_for_date
  rw [hlook]
  simp [hfalse]

/-- C2: on a non-empty ledger, resolution returns the exact-date record when
one exists; otherwise it returns the record of the greatest date in the window
from thirty days before the target through the day before the target that has
a record, and reports not-found exactly when no date of that window has one.
In particular, with a rate only on 2024-01-01, a query for 2024-01-31 resolves
to 2024-01-01 and a query for 2024-02-01 is not found. -/
theorem c2_rate_resolution :
    (∀ (archive : Archive) (cur : String) (L : Ledger) (t : Int),
      archive.lookup cur = some L → L ≠ [] →
      ((∀ r : ℚ, L.lookup t = some r → find_rate_for_date archive cur t = some (r, t)) ∧
       (L.lookup t = none →
         ∀ r : ℚ, ∀ d : Int, (find_rate_for_date archive cur t = some (r, d) ↔
           (t - 30 ≤ d ∧ d ≤ t - 1 ∧ L.lookup d = some r ∧
            ∀ e : Int, d < e → e ≤ t - 1 → L.lookup e = none))) ∧
       (L.lookup t = none →
         (find_rate_for_date archive cur t = none ↔
           ∀ e : Int, t - 30 ≤ e → e ≤ t - 1 → L.lookup e = none)))) ∧
    find_rate_for_date c2Archive ("PLN") (toOrdinal (CalDate.mk 2024 1 31)) =
      some (4, toOrdinal (CalDate.mk 2024 1 1)) ∧
    find_rate_for_date c2Archive ("PLN") (toOrdinal (CalDate.mk 2024 2 1)) = none := by
  refine ⟨?_, by decide, by decide⟩
  intro archive cur L t hlook hne
  have hred := find_rate_reduce archive cur L t hlook hne
  refine ⟨?_, ?_, ?_⟩
  · intro r hr
    rw [hred, hr]
  · intro hmiss r d
    rw [hred, hmiss]
    rw [search_back_some_iff L t (List.range' 1 30) range30_sorted r d]
    constructor
    · rintro ⟨⟨k, hk, hke⟩, hlk, hmax⟩
      rw [List.mem_range'_1] at hk
      refine ⟨by omega, by omega, hlk, ?_⟩
      intro e he1 he2
      have hkmem : (t - e).toNat ∈ List.range' 1 30 := by
        rw [List.mem_range'_1]
        omega
      have heq : t - ((t - e).toNat : Int) = e := by omega
      have hres := hmax (t - e).toNat hkmem (by rw [heq]; exact he1)
      rw [heq] at hres
      exact hres
    · rintro ⟨h1, h2, h3, h4⟩
      refine ⟨⟨(t - d).toNat, ?_, by omega⟩, h3, ?_⟩
      · rw [List.mem_range'_1]
        omega
      · intro k hk hlt
        rw [List.mem_range'_1] at hk
        exact h4 (t - (k : Int)) hlt (by omega)
  · intro hmiss
    rw [hred, hmiss, search_back_none_iff]
    constructor
    · intro h e he1 he2
      have hkmem : (t - e).toNat ∈ List.range' 1 30 := by
        rw [List.mem_range'_1]
        omega
      have heq : t - ((t - e).toNat : Int) = e := by omega
      have hres := h (t - e).toNat hkmem
      rw [heq] at hres
      exact hres
    · intro h k hk
      rw [List.mem_range'_1] at hk
      exact h (t - (k : Int)) (by omega) (by omega)

/-- C2 witness: the general clause applied to a concrete archive at the exact
date hit. -/
theorem c2_rate_resolution_witness :
    find_rate_for_date c2Archive ("PLN") (toOrdinal (CalDate.mk 2024 1 1)) =
      some (4, toOrdinal (CalDate.mk 2024 1 1)) :=
  (c2_rate_resolution.1 c2Archive ("PLN") [(toOrdinal (CalDate.mk 2024 1 1), (4 : ℚ))]
    (toOrdinal (CalDate.mk 2024 1 1)) (by decide) (by decide)).1 4 (by decide)

/-! ### C3: classification of resolution failures -/

/-- C3 counterexample: with EUR covered on 2020-01-01 and 2025-01-01, a query
for 2022-06-15 fails inside coverage (an interior gap wider than the fallback
window) yet is answered with the latest-available error, although the requested
date precedes the latest known date rather than following coverage.  This
refutes the claim that the non-preceding failure case means the date follows
coverage outside the fallback window, and that there are only those two reasons
for failure. -/
theorem c3_boundary_counterexample :
    convert c3Archive 1 ("EUR") (toOrdinal (CalDate.mk 2022 6 15)) =
      ConvResult.notFoundLate (toOrdinal (CalDate.mk 2022 6 15))
        (toOrdinal (CalDate.mk 2025 1 1)) ("EUR") ∧
    toOrdinal (CalDate.mk 2020 1 1) < toOrdinal (CalDate.mk 2022 6 15) ∧
    toOrdinal (CalDate.mk 2022 6 15) < toOrdinal (CalDate.mk 2025 1 1) := by
  decide

theorem convert_notfound_reduce (archive : Archive) (amount : ℚ) (c : String) (t : Int)
    (L : Ledger) (hlook : archive.lookup (supper c) = some L) (hne : L ≠ [])
    (hfind : find_rate_for_date archive (supper c) t = none) :
    convert archive amount c t =
      if t < (sorted_dates L).headI then
        ConvResult.notFoundEarly t ((sorted_dates L).headI) (supper c)
      else
        ConvResult.notFoundLate t ((sorted_dates L).getLastD 0) (supper c) := by
  have hfalse : L.isEmpty = false := by
    cases L with
    | nil => exact absurd rfl hne
    | cons a l => rfl
  simp only [convert]
  rw [hlook]
  simp [hfalse, hfind]

/-- C3 amended: once the currency is known with a non-empty ledger, a failed
resolution is classified by comparing the requested date with the minimum known
date only: if the date precedes all coverage the error carries the earliest
available date, and otherwise — including when the date sits in an interior
coverage gap wider than the fallback window, not only when it follows coverage
— the error carries the latest available date.  These two are the only failure
shapes. -/
theorem c3_boundary_classification :
    ∀ (archive : Archive) (c : String) (L : Ledger) (amount : ℚ) (t : Int),
      archive.lookup (supper c) = some L → L ≠ [] →
      find_rate_for_date archive (supper c) t = none →
      ((t < (sorted_dates L).headI →
          convert archive amount c t =
            ConvResult.notFoundEarly t ((sorted_dates L).headI) (supper c) ∧
          (sorted_dates L).headI ∈ L.map Prod.fst ∧
          (∀ k ∈ L.map Prod.fst, (sorted_dates L).headI ≤ k)) ∧
       (¬ t < (sorted_dates L).headI →
          convert archive amount c t =
            ConvResult.notFoundLate t ((sorted_dates L).getLastD 0) (supper c) ∧
          (sorted_dates L).getLastD 0 ∈ L.map Prod.fst ∧
          (∀ k ∈ L.map Prod.fst, k ≤ (sorted_dates L).getLastD 0))) := by
  intro archive c L amount t hlook hne hfind
  have hred := convert_notfound_reduce archive amount c t L hlook hne hfind
  constructor
  · intro hcase
    rw [if_pos hcase] at hred
    exact ⟨hred, (sorted_dates_min L hne).1, (sorted_dates_min L hne).2⟩
  · intro hcase
    rw [if_neg hcase] at hred
    exact ⟨hred, (sorted_dates_max L hne).1, (sorted_dates_max L hne).2⟩

/-- C3 witness: the early-failure arm applied to a one-date PLN archive at a
query preceding all coverage. -/
theorem c3_boundary_classification_witness :
    convert c3wArchive 1 ("PLN") (toOrdinal (CalDate.mk 2019 1 1)) =
      ConvResult.notFoundEarly (toOrdinal (CalDate.mk 2019 1 1))
        ((sorted_dates [(toOrdinal (CalDate.mk 2024 1 1), (4 : ℚ))]).headI) ("PLN") :=
  ((c3_boundary_classification c3wArchive ("PLN")
    [(toOrdinal (CalDate.mk 2024 1 1), (4 : ℚ))] 1 (toOrdinal (CalDate.mk 2019 1 1))
    (by decide) (by decide) (by decide)).1 (by decide)).1

/-! ### C4: unknown currency versus configured-but-empty ledger -/

/-- C4: a currency code absent from the archive (after uppercasing) yields the
unknown-currency error carrying the sorted list of available currency codes,
while a present code with an empty ledger yields the distinct no-data error
whose message names the expected storage directory for that currency's bank
code. -/
theorem c4_unknown_vs_empty :
    ∀ (archive : Archive) (amount : ℚ) (c : String) (t : Int),
      (archive.lookup (supper c) = none →
        convert archive amount c t =
          ConvResult.unknownCurrency
            ((("Currency " ++ c) ++ " not supported. Available currencies: ")
              ++ joinComma (sortStrings (archive.map Prod.fst)))
            (sortStrings (archive.map Prod.fst)) c ∧
        List.Sorted strRel (sortStrings (archive.map Prod.fst)) ∧
        (sortStrings (archive.map Prod.fst)).Perm (archive.map Prod.fst)) ∧
      (∀ L : Ledger, archive.lookup (supper c) = some L → L = [] →
        convert archive amount c t =
          ConvResult.noData
            (((("Currency " ++ supper c)
              ++ " is configured but has no rate data. Please check rates/")
              ++ bank_code_for (supper c)) ++ "/ directory")
            (supper c)) := by
  intro archive amount c t
  constructor
  · intro hlook
    refine ⟨?_, sortStrings_sorted (archive.map Prod.fst), sortStrings_perm (archive.map Prod.fst)⟩
    simp only [convert]
    rw [hlook]
  · intro L hlook hempty
    subst hempty
    simp only [convert]
    rw [hlook]
    simp

/-- C4 witness: both arms applied to an archive holding one configured but
empty currency. -/
theorem c4_unknown_vs_empty_witness :
    (convert c4Archive 1 ("eur") 5 =
      ConvResult.noData
        (((("Currency " ++ supper ("eur"))
          ++ " is configured but has no rate data. Please check rates/")
          ++ bank_code_for (supper ("eur"))) ++ "/ directory")
        (supper ("eur"))) ∧
    (convert c4Archive 1 ("XXX") 5 =
      ConvResult.unknownCurrency
        ((("Currency " ++ "XXX") ++ " not supported. Available currencies: ")
          ++ joinComma (sortStrings (c4Archive.map Prod.fst)))
        (sortStrings (c4Archive.map Prod.fst)) ("XXX")) :=
  ⟨(c4_unknown_vs_empty c4Archive 1 ("eur") 5).2 [] (by decide) rfl,
   ((c4_unknown_vs_empty c4Archive 1 ("XXX") 5).1 (by decide)).1⟩

/-! ### C9: case-insensitive currency lookup -/

theorem convert_supper (archive : Archive) (amount : ℚ) (c : String) (t : Int) :
    convert archive amount (supper c) t = convert archive amount c t ∨
    (∃ e1 e2 : String, ∃ avail : List String,
      convert archive amount c t = ConvResult.unknownCurrency e1 avail c ∧
      convert archive amount (supper c) t = ConvResult.unknownCurrency e2 avail (supper c)) := by
  cases hlook : archive.lookup (supper c) with
  | none =>
      right
      simp only [convert, supper_idem]
      rw [hlook]
      exact ⟨_, _, _, rfl, rfl⟩
  | some L =>
      left
      simp only [convert, supper_idem]
      rw [hlook]

theorem convert_some_reduce (archive : Archive) (amount : ℚ) (c : String) (t : Int)
    (L : Ledger) (hlook : archive.lookup (supper c) = some L) :
    convert archive amount c t =
      if L.isEmpty then
        ConvResult.noData
          (((("Currency " ++ supper c)
            ++ " is configured but has no rate data. Please check rates/")
            ++ bank_code_for (supper c)) ++ "/ directory")
          (supper c)
      else
        match find_rate_for_date archive (supper c) t with
        | some p => ConvResult.success amount (round2 (amount * p.1)) (supper c) p.1 p.2 t
        | none =>
            if t < (sorted_dates L).headI then
              ConvResult.notFoundEarly t ((sorted_dates L).headI) (supper c)
            else
              ConvResult.notFoundLate t ((sorted_dates L).getLastD 0) (supper c) := by
  simp only [convert]
  rw [hlook]

theorem resultCurrency_convert (archive : Archive) (amount : ℚ) (c : String) (t : Int) :
    resultCurrency (convert archive amount c t) = none ∨
    resultCurrency (convert archive amount c t) = some (supper c) := by
  cases hlook : archive.lookup (supper c) with
  | none =>
      left
      simp only [convert]
      rw [hlook]
      rfl
  | some L =>
      rw [convert_some_reduce archive amount c t L hlook]
      by_cases hL : L.isEmpty = true
      · rw [if_pos hL]
        left
        rfl
      · rw [if_neg hL]
        cases hf : find_rate_for_date archive (supper c) t with
        | some p => right; rfl
        | none =>
            left
            show resultCurrency (if t < (sorted_dates L).headI then
                ConvResult.notFoundEarly t ((sorted_dates L).headI) (supper c)
              else ConvResult.notFoundLate t ((sorted_dates L).getLastD 0) (supper c)) = none
            split <;> rfl

/-- C9: conversion resolves against the uppercased currency code: for every
amount, date and currency string, the outcome classification, the rate used and
the converted amount agree with those of the uppercased request, and a
successful result reports the uppercased currency code. -/
theorem c9_case_insensitive :
    ∀ (archive : Archive) (amount : ℚ) (c : String) (t : Int),
      resultKind (convert archive amount c t) = resultKind (convert archive amount (supper c) t) ∧
      resultRate (convert archive amount c t) = resultRate (convert archive amount (supper c) t) ∧
      resultAmount (convert archive amount c t) =
        resultAmount (convert archive amount (supper c) t) ∧
      resultCurrency (convert archive amount c t) =
        (resultCurrency (convert archive amount c t)).map (fun _ => supper c) := by
  intro archive amount c t
  have hcur : resultCurrency (convert archive amount c t) =
      (resultCurrency (convert archive amount c t)).map (fun _ => supper c) := by
    rcases resultCurrency_convert archive amount c t with h | h
    · rw [h]; rfl
    · rw [h]; rfl
  rcases convert_supper archive amount c t with h | ⟨e1, e2, avail, h1, h2⟩
  · rw [h]
    exact ⟨rfl, rfl, rfl, hcur⟩
  · rw [h1, h2]
    refine ⟨rfl, rfl, rfl, ?_⟩
    rw [← h1]
    exact hcur

/-! ### C10: currency listing versus the unknown-currency error -/

theorem gac_keys_mem (archive : Archive) (cur : String)
    (h : cur ∈ (get_available_currencies archive).map Prod.fst) :
    cur ∈ archive.map Prod.fst := by
  rcases List.mem_map.mp h with ⟨q, hq, hqe⟩
  rcases List.mem_filterMap.mp hq with ⟨p, hp, hpe⟩
  by_cases he : p.2.isEmpty
  · rw [if_pos he] at hpe
    exact absurd hpe (by simp)
  · rw [if_neg he] at hpe
    have hq1 : q = (p.1, ((sorted_dates p.2).headI, (sorted_dates p.2).getLastD 0,
        (sorted_dates p.2).length)) := (Option.some.inj hpe).symm
    rw [← hqe, hq1]
    exact List.mem_map_of_mem Prod.fst hp

theorem gac_lookup (archive : Archive) (h : (archive.map Prod.fst).Nodup) (cur : String)
    (L : Ledger) (hlook : archive.lookup cur = some L) :
    (get_available_currencies archive).lookup cur =
      if L.isEmpty then none
      else some ((sorted_dates L).headI, (sorted_dates L).getLastD 0,
        (sorted_dates L).length) := by
  induction archive with
  | nil => simp [List.lookup] at hlook
  | cons p rest ih =>
      obtain ⟨a, M⟩ := p
      simp only [List.map, List.nodup_cons] at h
      rw [lookup_cons] at hlook
      by_cases hc : cur = a
      · rw [if_pos hc] at hlook
        have hLM : M = L := Option.some.inj hlook
        subst hLM
        by_cases he : M.isEmpty
        · rw [if_pos he]
          have he2 : M = [] := List.isEmpty_iff.mp he
          have hbranch : get_available_currencies ((a, M) :: rest) =
              get_available_currencies rest := by
            simp [get_available_currencies, List.filterMap_cons, he2]
          rw [hbranch]
          rw [lookup_eq_none_iff]
          intro hmem
          exact h.1 (hc ▸ gac_keys_mem rest cur hmem)
        · rw [if_neg he]
          have he2 : ¬ M = [] := by
            intro hM
            rw [hM] at he
            exact he rfl
          have hbranch : get_available_currencies ((a, M) :: rest) =
              (a, ((sorted_dates M).headI, (sorted_dates M).getLastD 0,
                (sorted_dates M).length)) :: get_available_currencies rest := by
            simp [get_available_currencies, List.filterMap_cons, he2]
          rw [hbranch, lookup_cons, if_pos hc]
      · rw [if_neg hc] at hlook
        have hrest := ih h.2 hlook
        by_cases he : M.isEmpty
        · have he2 : M = [] := List.isEmpty_iff.mp he
          have hbranch : get_available_currencies ((a, M) :: rest) =
              get_available_currencies rest := by
            simp [get_available_currencies, List.filterMap_cons, he2]
          rw [hbranch, hrest]
        · have he2 : ¬ M = [] := by
            intro hM
            rw [hM] at he
            exact he rfl
          have hbranch : get_available_currencies ((a, M) :: rest) =
              (a, ((sorted_dates M).headI, (sorted_dates M).getLastD 0,
                (sorted_dates M).length)) :: get_available_currencies rest := by
            simp [get_available_currencies, List.filterMap_cons, he2]
          rw [hbranch, lookup_cons, if_neg hc, hrest]

/-- C10: the currency listing omits every loaded currency whose ledger is
empty, and for each listed currency the earliest date is at most the latest and
the day total counts the distinct dates; by contrast, the available-currencies
list attached to the unknown-currency error is the sorted list of all loaded
currency keys, including those with empty ledgers. -/
theorem c10_listing_vs_error :
    ∀ archive : Archive, (archive.map Prod.fst).Nodup →
      ((∀ cur : String, ∀ L : Ledger, archive.lookup cur = some L → L = [] →
        (get_available_currencies archive).lookup cur = none) ∧
       (∀ cur : String, ∀ L : Ledger, archive.lookup cur = some L → L ≠ [] →
        ((get_available_currencies archive).lookup cur =
          some ((sorted_dates L).headI, (sorted_dates L).getLastD 0,
            (sorted_dates L).length) ∧
         (sorted_dates L).headI ≤ (sorted_dates L).getLastD 0 ∧
         ((L.map Prod.fst).Nodup →
           (sorted_dates L).length = (L.map Prod.fst).dedup.length))) ∧
       (∀ (amount : ℚ) (c : String) (t : Int), archive.lookup (supper c) = none →
        (convert archive amount c t =
          ConvResult.unknownCurrency
            ((("Currency " ++ c) ++ " not supported. Available currencies: ")
              ++ joinComma (sortStrings (archive.map Prod.fst)))
            (sortStrings (archive.map Prod.fst)) c)) ∧
       (∀ cur ∈ archive.map Prod.fst, cur ∈ sortStrings (archive.map Prod.fst))) := by
  intro archive h
  refine ⟨?_, ?_, ?_, ?_⟩
  · intro cur L hlook hempty
    subst hempty
    rw [gac_lookup archive h cur [] hlook]
    rfl
  · intro cur L hlook hne
    have hisEmpty : L.isEmpty = false := by
      cases L with
      | nil => exact absurd rfl hne
      | cons a l => rfl
    refine ⟨?_, ?_, ?_⟩
    · rw [gac_lookup archive h cur L hlook, hisEmpty]
      rfl
    · exact (sorted_dates_max L hne).2 ((sorted_dates L).headI) (sorted_dates_min L hne).1
    · intro hnodup
      rw [List.Nodup.dedup hnodup]
      exact (sortedInts_perm (L.map Prod.fst)).length_eq
  · intro amount c t hlook
    simp only [convert]
    rw [hlook]
  · intro cur hmem
    exact (sortStrings_perm (archive.map Prod.fst)).mem_iff.mpr hmem

/-- C10 witness: the three behaviours on a concrete archive holding an empty
EUR ledger and a two-day PLN ledger. -/
theorem c10_listing_vs_error_witness :
    (get_available_currencies c10Archive).lookup ("EUR") = none ∧
    (get_available_currencies c10Archive).lookup ("PLN") =
      some ((sorted_dates [(5, (1 : ℚ)), (3, (2 : ℚ))]).headI,
        (sorted_dates [(5, (1 : ℚ)), (3, (2 : ℚ))]).getLastD 0,
        (sorted_dates [(5, (1 : ℚ)), (3, (2 : ℚ))]).length) ∧
    ("EUR" ∈ sortStrings (c10Archive.map Prod.fst)) := by
  have h := c10_listing_vs_error c10Archive (by decide)
  exact ⟨h.1 ("EUR") [] (by decide) rfl,
    (h.2.1 ("PLN") [(5, (1 : ℚ)), (3, (2 : ℚ))] (by decide) (by decide)).1,
    h.2.2.2 ("EUR") (by decide)⟩

/-! ### C1: merge conflict behaviour -/

/-- C1 counterexample: merging a stored 1.10 for 2024-03-01 with a refetched
9.99 for the same date keeps 9.99, not 1.10 — the incoming rate wins, the
existing one is discarded. -/
theorem c1_existing_wins_counterexample :
    (mergeRates c1Existing c1Incoming).lookup ("2024-03-01") =
      some (StoredRec.mk "9.99" "USD_TO_PLN") ∧
    ¬ (mergeRates c1Existing c1Incoming).lookup ("2024-03-01") =
      some (StoredRec.mk "1.10" "USD_TO_PLN") := by
  decide

/-- C1 amended: the merge before persisting is a union by date key in which,
for every date present in both, the incoming refetched rate wins and the
previously stored rate is discarded. -/
theorem c1_merge_union_incoming_wins :
    ∀ (existing incoming : List (String × StoredRec)),
      (incoming.map Prod.fst).Nodup →
      ∀ k : String, (mergeRates existing incoming).lookup k =
        ((incoming.lookup k).or (existing.lookup k)) := by
  intro e i hi k
  exact dictMerge_lookup e i hi k

/-- C1 witness: the amended union law applied to the concrete colliding
ledgers. -/
theorem c1_merge_union_incoming_wins_witness :
    (mergeRates c1Existing c1Incoming).lookup ("2024-03-01") =
      ((c1Incoming.lookup ("2024-03-01")).or (c1Existing.lookup ("2024-03-01"))) :=
  c1_merge_union_incoming_wins c1Existing c1Incoming (by decide) ("2024-03-01")

/-! ### C8: algebraic laws of the merge -/

/-- C8 counterexample: the merge is not commutative — two record sets that
disagree on a shared date merge to different ledgers in the two orders, the
later-merged set winning. -/
theorem c8_commutativity_counterexample :
    (mergeRates c8First c8Second).lookup ("2024-03-01") =
      some (StoredRec.mk "2.0" "D") ∧
    (mergeRates c8Second c8First).lookup ("2024-03-01") =
      some (StoredRec.mk "1.0" "D") ∧
    ¬ mergeRates c8First c8Second = mergeRates c8Second c8First := by
  decide

/-- C8 amended: merge is idempotent — refetching exactly the stored records
changes nothing — and merge order is irrelevant precisely for record sets that
agree on every shared date (in particular disjoint ones); where the sets
disagree, the later-merged set wins, so order matters there. -/
theorem c8_merge_idempotent_conditionally_commutative :
    (∀ L : List (String × StoredRec), (L.map Prod.fst).Nodup → mergeRates L L = L) ∧
    (∀ L R : List (String × StoredRec), (R.map Prod.fst).Nodup →
      (∀ k : String, R.lookup k = L.lookup k) →
      ∀ k : String, (mergeRates L R).lookup k = L.lookup k) ∧
    (∀ A B : List (String × StoredRec),
      (A.map Prod.fst).Nodup → (B.map Prod.fst).Nodup →
      (∀ (k : String) (a b : StoredRec), A.lookup k = some a → B.lookup k = some b → a = b) →
      ∀ k : String, (mergeRates A B).lookup k = (mergeRates B A).lookup k) := by
  refine ⟨?_, ?_, ?_⟩
  · intro L hL
    exact dictMerge_self L hL
  · intro L R hR hagree k
    unfold mergeRates
    rw [dictMerge_lookup L R hR k, hagree k]
    cases h : L.lookup k <;> simp [Option.or]
  · intro A B hA hB hagree k
    unfold mergeRates
    rw [dictMerge_lookup A B hB k, dictMerge_lookup B A hA k]
    cases ha : A.lookup k with
    | none => cases hb : B.lookup k <;> simp [Option.or]
    | some a =>
        cases hb : B.lookup k with
        | none => simp [Option.or]
        | some b =>
            have : a = b := hagree k a b ha hb
            rw [this]

/-- C8 witness: idempotence on a concrete ledger and order-independence on two
concrete disjoint record sets. -/
theorem c8_merge_props_witness :
    mergeRates c8First c8First = c8First ∧
    (mergeRates c8First c8Third).lookup ("2024-03-05") =
      (mergeRates c8Third c8First).lookup ("2024-03-05") := by
  constructor
  · exact c8_merge_idempotent_conditionally_commutative.1 c8First (by decide)
  · refine c8_merge_idempotent_conditionally_commutative.2.2 c8First c8Third
      (by decide) (by decide) ?_ ("2024-03-05")
    intro k a b ha hb
    exfalso
    have h1 : k = "2024-03-01" := by
      by_contra hne
      rw [show c8First = [("2024-03-01", StoredRec.mk "1.0" "D")] from rfl, lookup_cons,
        if_neg hne] at ha
      simp [List.lookup] at ha
    have h2 : k = "2024-03-05" := by
      by_contra hne
      rw [show c8Third = [("2024-03-05", StoredRec.mk "3.0" "D")] from rfl, lookup_cons,
        if_neg hne] at hb
      simp [List.lookup] at hb
    rw [h1] at h2
    exact absurd h2 (by decide)

/-! ### C6: parser validity lemmas -/

theorem parseYYYYMMDD_valid (s : String) (d : CalDate) (h : parseYYYYMMDD s = some d) :
    d.valid = true := by
  unfold parseYYYYMMDD at h
  dsimp only at h
  repeat' split at h
  all_goals first
    | exact Option.noConfusion h
    | (rename_i hvalid
       rw [← Option.some.inj h]
       exact hvalid)

theorem parse_dmy_slash_valid (s : String) (d : CalDate) (h : parse_dmy_slash s = some d) :
    d.valid = true := by
  unfold parse_dmy_slash at h
  dsimp only at h
  repeat' split at h
  all_goals first
    | exact Option.noConfusion h
    | (rename_i hvalid
       rw [← Option.some.inj h]
       exact hvalid)

theorem parse_mdy_slash_valid (s : String) (d : CalDate) (h : parse_mdy_slash s = some d) :
    d.valid = true := by
  unfold parse_mdy_slash at h
  dsimp only at h
  repeat' split at h
  all_goals first
    | exact Option.noConfusion h
    | (rename_i hvalid
       rw [← Option.some.inj h]
       exact hvalid)

theorem parse_dby_dash_valid (s : String) (d : CalDate) (h : parse_dby_dash s = some d) :
    d.valid = true := by
  unfold parse_dby_dash at h
  dsimp only at h
  repeat' split at h
  all_goals first
    | exact Option.noConfusion h
    | (rename_i hvalid
       rw [← Option.some.inj h]
       exact hvalid)

theorem parse_ymd_dash_valid (s : String) (d : CalDate) (h : parse_ymd_dash s = some d) :
    d.valid = true := by
  unfold parse_ymd_dash at h
  dsimp only at h
  repeat' split at h
  all_goals first
    | exact Option.noConfusion h
    | (rename_i hvalid
       rw [← Option.some.inj h]
       exact hvalid)

theorem ecb_parse_date_valid (s : String) (d : CalDate) (h : ecb_parse_date s = some d) :
    d.valid = true := by
  unfold ecb_parse_date at h
  cases h1 : parse_dmy_slash s with
  | some d1 =>
      rw [h1] at h
      have h' : some d1 = some d := h
      exact Option.some.inj h' ▸ parse_dmy_slash_valid s d1 h1
  | none =>
      rw [h1] at h
      replace h : ((parse_mdy_slash s).orElse fun _ =>
          (parse_dby_dash s).orElse fun _ => parse_ymd_dash s) = some d := h
      cases h2 : parse_mdy_slash s with
      | some d2 =>
          rw [h2] at h
          have h' : some d2 = some d := h
          exact Option.some.inj h' ▸ parse_mdy_slash_valid s d2 h2
      | none =>
          rw [h2] at h
          replace h : ((parse_dby_dash s).orElse fun _ => parse_ymd_dash s) = some d := h
          cases h3 : parse_dby_dash s with
          | some d3 =>
              rw [h3] at h
              have h' : some d3 = some d := h
              exact Option.some.inj h' ▸ parse_dby_dash_valid s d3 h3
          | none =>
              rw [h3] at h
              replace h : parse_ymd_dash s = some d := h
              exact parse_ymd_dash_valid s d h

theorem mem_dictInsert {α : Type} (l : List (String × α)) (k : String) (v : α)
    (p : String × α) (hp : p ∈ dictInsert l k v) : p ∈ l ∨ p.1 = k := by
  unfold dictInsert at hp
  by_cases hs : (l.lookup k).isSome
  · rw [if_pos hs] at hp
    rcases List.mem_map.mp hp with ⟨q, hq, hqe⟩
    by_cases hqk : q.1 = k
    · right
      rw [← hqe, if_pos hqk]
    · left
      rw [← hqe, if_neg hqk]
      exact hq
  · rw [if_neg hs] at hp
    rcases List.mem_append.mp hp with hin | hone
    · left
      exact hin
    · right
      rw [List.mem_singleton.mp hone]

theorem nbp_parse_line_shape (line : String) (p : String × ParsedRec)
    (h : nbp_parse_line line = some p) :
    ∃ d : CalDate, d.valid = true ∧ p.1 = isoformat d := by
  unfold nbp_parse_line at h
  split at h
  · exact Option.noConfusion h
  · split at h
    · rename_i xs p0 mid p2 tail hsplit
      cases hd : parseYYYYMMDD (strTrim p0) with
      | none =>
          rw [hd] at h
          exact Option.noConfusion h
      | some d0 =>
          rw [hd] at h
          replace h : (match parseFloat (String.mk ((strTrim p2).data.map
              (fun c => if c = ',' then '.' else c))) with
            | none => none
            | some r => some (isoformat d0, ParsedRec.mk r NBP_DIRECTION)) = some p := h
          cases hr : parseFloat (String.mk ((strTrim p2).data.map
              (fun c => if c = ',' then '.' else c))) with
          | none =>
              rw [hr] at h
              exact Option.noConfusion h
          | some r =>
              rw [hr] at h
              have h' : some (isoformat d0, ParsedRec.mk r NBP_DIRECTION) = some p := h
              refine ⟨d0, parseYYYYMMDD_valid (strTrim p0) d0 hd, ?_⟩
              rw [← Option.some.inj h']
    · exact Option.noConfusion h

theorem foldl_emit_inv {β : Type} (P : String → Prop) (Q : β → Prop)
    (step : List (String × ParsedRec) → β → List (String × ParsedRec))
    (hstep : ∀ acc b, Q b → (∀ p ∈ acc, P p.1) → ∀ p ∈ step acc b, P p.1) :
    ∀ (rows : List β) (acc : List (String × ParsedRec)),
      (∀ b ∈ rows, Q b) → (∀ p ∈ acc, P p.1) → ∀ p ∈ rows.foldl step acc, P p.1 := by
  intro rows
  induction rows with
  | nil =>
      intro acc _ hacc
      exact hacc
  | cons b rows ih =>
      intro acc hq hacc
      exact ih (step acc b) (fun b' hb' => hq b' (List.mem_cons_of_mem b hb'))
        (hstep acc b (hq b (List.mem_cons_self b rows)) hacc)

/-- C6 counterexample: the NBP fetch applies no year filter to parsed rows —
fetching the caller range 2024..2024 from a yearly file whose data row is
dated 2023-12-31 emits that pair although its year lies outside the range. -/
theorem c6_year_filter_counterexample :
    (nbp_fetch_rates (fun _ => c6BadContent) 2024 2024).lookup ("2023-12-31") =
      some (ParsedRec.mk (mkRat 45 10) NBP_DIRECTION) ∧
    ¬ (2024 ≤ 2023 ∧ 2023 ≤ 2024) := by
  decide

/-- C6 amended: the ECB and RBA parsers emit only pairs whose parsed date has
a year inside the caller-supplied inclusive range and whose key is the
canonical zero-padded ISO form of a valid calendar date (for RBA, timestamp
cells are valid dates by construction, stated as a hypothesis on the rows);
the NBP parser normalizes every emitted date to the same canonical ISO form
but applies no year filter — it emits every well-formed row of each fetched
per-year file. -/
theorem c6_year_filter_and_normalization :
    (∀ (rows : List EcbRow) (s e : Nat), ∀ p ∈ ecb_parse_csv rows s e,
      ∃ d : CalDate, d.valid = true ∧ s ≤ d.year ∧ d.year ≤ e ∧ p.1 = isoformat d) ∧
    (∀ (rows : List RbaRow) (s e : Nat),
      (∀ row ∈ rows, ∀ dc : CalDate, row.dateCell = RbaCell.ts dc → dc.valid = true) →
      ∀ p ∈ rba_fetch_range rows s e,
      ∃ d : CalDate, d.valid = true ∧ s ≤ d.year ∧ d.year ≤ e ∧ p.1 = isoformat d) ∧
    (∀ content : String, ∀ p ∈ nbp_fetch_year content,
      ∃ d : CalDate, d.valid = true ∧ p.1 = isoformat d) := by
  refine ⟨?_, ?_, ?_⟩
  · intro rows s e p hp
    unfold ecb_parse_csv at hp
    refine foldl_emit_inv
      (fun k => ∃ d : CalDate, d.valid = true ∧ s ≤ d.year ∧ d.year ≤ e ∧ k = isoformat d)
      (fun _ => True) _ ?_ rows [] (fun _ _ => trivial) (by simp) p hp
    intro acc row _ hacc q hq
    dsimp only at hq
    by_cases h0 : strTrim row.dateField = ""
    · rw [if_pos h0] at hq
      exact hacc q hq
    · rw [if_neg h0] at hq
      cases hd : ecb_parse_date (strTrim row.dateField) with
      | none =>
          rw [hd] at hq
          exact hacc q hq
      | some d =>
          rw [hd] at hq
          replace hq : q ∈ (if (decide (s ≤ d.year) && decide (d.year ≤ e)) = true then
              (if (decide (strTrim row.usdField = "") ||
                  decide (strTrim row.usdField = "N/A")) = true then acc
               else
                 match parseFloat (strTrim row.usdField) with
                 | none => acc
                 | some r => dictInsert acc (isoformat d) (ParsedRec.mk r ECB_DIRECTION))
              else acc) := hq
          by_cases hy : (decide (s ≤ d.year) && decide (d.year ≤ e)) = true
          · rw [if_pos hy] at hq
            by_cases hu : (decide (strTrim row.usdField = "") ||
                decide (strTrim row.usdField = "N/A")) = true
            · rw [if_pos hu] at hq
              exact hacc q hq
            · rw [if_neg hu] at hq
              cases hr : parseFloat (strTrim row.usdField) with
              | none =>
                  rw [hr] at hq
                  exact hacc q hq
              | some r =>
                  rw [hr] at hq
                  rcases mem_dictInsert acc (isoformat d) (ParsedRec.mk r ECB_DIRECTION) q hq
                    with hin | hkey
                  · exact hacc q hin
                  · simp only [Bool.and_eq_true, decide_eq_true_eq] at hy
                    exact ⟨d, ecb_parse_date_valid (strTrim row.dateField) d hd,
                      hy.1, hy.2, hkey⟩
          · rw [if_neg hy] at hq
            exact hacc q hq
  · intro rows s e hwf p hp
    unfold rba_fetch_range at hp
    refine foldl_emit_inv
      (fun k => ∃ d : CalDate, d.valid = true ∧ s ≤ d.year ∧ d.year ≤ e ∧ k = isoformat d)
      (fun row => ∀ dc : CalDate, row.dateCell = RbaCell.ts dc → dc.valid = true)
      _ ?_ rows [] hwf (by simp) p hp
    intro acc row hrow hacc q hq
    cases hd : rba_parse_date_cell row.dateCell with
    | none =>
        rw [hd] at hq
        exact hacc q hq
    | some d =>
        rw [hd] at hq
        have hdv : d.valid = true := by
          cases hcell : row.dateCell with
          | na =>
              rw [hcell] at hd
              exact Option.noConfusion hd
          | str s2 =>
              rw [hcell] at hd
              exact parse_dby_dash_valid s2 d hd
          | ts dc =>
              rw [hcell] at hd
              have : dc = d := Option.some.inj hd
              exact this ▸ hrow dc hcell
          | num q2 =>
              rw [hcell] at hd
              exact Option.noConfusion hd
        replace hq : q ∈ (if (decide (s ≤ d.year) && decide (d.year ≤ e)) = true then
            (match rba_rate_val row.rateCell with
             | none => acc
             | some r => dictInsert acc (isoformat d) (ParsedRec.mk r RBA_DIRECTION))
            else acc) := hq
        by_cases hy : (decide (s ≤ d.year) && decide (d.year ≤ e)) = true
        · rw [if_pos hy] at hq
          cases hr : rba_rate_val row.rateCell with
          | none =>
              rw [hr] at hq
              exact hacc q hq
          | some r =>
              rw [hr] at hq
              rcases mem_dictInsert acc (isoformat d) (ParsedRec.mk r RBA_DIRECTION) q hq
                with hin | hkey
              · exact hacc q hin
              · simp only [Bool.and_eq_true, decide_eq_true_eq] at hy
                exact ⟨d, hdv, hy.1, hy.2, hkey⟩
        · rw [if_neg hy] at hq
          exact hacc q hq
  · intro content p hp
    unfold nbp_fetch_year at hp
    refine foldl_emit_inv
      (fun k => ∃ d : CalDate, d.valid = true ∧ k = isoformat d)
      (fun _ => True) _ ?_ ((strSplitOn (strTrim content) '\n').drop 1) [] (fun _ _ => trivial)
      (by simp) p hp
    intro acc line _ hacc q hq
    cases hl : nbp_parse_line line with
    | none =>
        rw [hl] at hq
        exact hacc q hq
    | some pr =>
        rw [hl] at hq
        rcases mem_dictInsert acc pr.1 pr.2 q hq with hin | hkey
        · exact hacc q hin
        · rcases nbp_parse_line_shape line pr hl with ⟨d, hdv, hde⟩
          exact ⟨d, hdv, hde ▸ hkey⟩

/-- C6 witness: the ECB clause applied to one concrete row inside the range. -/
theorem c6_year_filter_and_normalization_witness :
    ∃ d : CalDate, d.valid = true ∧ 2020 ≤ d.year ∧ d.year ≤ 2025 ∧
      ("2022-06-15" : String) = isoformat d :=
  c6_year_filter_and_normalization.1 c6EcbRows 2020 2025
    ("2022-06-15", ParsedRec.mk (mkRat 105 100) ECB_DIRECTION) (by decide)

/-! ### C7: year partitioning lemmas -/

theorem insertYear_lookup (acc : List (String × List (String × StoredRec))) (y : String)
    (p : String × StoredRec) (k : String) :
    (insertYear acc y p).lookup k =
      if k = y then
        some (match acc.lookup y with | some es => es ++ [p] | none => [p])
      else acc.lookup k := by
  induction acc with
  | nil =>
      unfold insertYear
      rw [lookup_cons]
      by_cases hk : k = y
      · rw [if_pos hk, if_pos hk]
        simp [List.lookup]
      · rw [if_neg hk, if_neg hk]
  | cons q rest ih =>
      obtain ⟨a, es⟩ := q
      unfold insertYear
      by_cases ha : a = y
      · rw [if_pos (by simpa using ha)]
        subst ha
        by_cases hk : k = a
        · subst hk
          simp [lookup_cons]
        · simp [lookup_cons, hk]
      · rw [if_neg (by simpa using ha)]
        have hay : ¬ y = a := fun he => ha he.symm
        by_cases hk : k = a
        · subst hk
          simp [lookup_cons, ha]
        · simp [lookup_cons, hk, ih, hay]

theorem group_foldl_lookup :
    ∀ (rs : List (String × StoredRec)) (acc : List (String × List (String × StoredRec)))
      (y : String),
      ((rs.foldl (fun acc p => insertYear acc (String.mk (p.1.data.take 4)) p) acc).lookup y) =
        match acc.lookup y, rs.filter (fun p => String.mk (p.1.data.take 4) == y) with
        | none, [] => none
        | none, l => some l
        | some m, l => some (m ++ l) := by
  intro rs
  induction rs with
  | nil =>
      intro acc y
      simp only [List.foldl, List.filter]
      cases h : acc.lookup y <;> simp
  | cons p rs ih =>
      intro acc y
      simp only [List.foldl]
      rw [ih (insertYear acc (String.mk (p.1.data.take 4)) p) y, insertYear_lookup]
      by_cases hy : y = String.mk (p.1.data.take 4)
      · have hf : (String.mk (p.1.data.take 4) == y) = true := by
          rw [beq_iff_eq, hy]
        rw [if_pos hy]
        simp only [List.filter, hf]
        subst hy
        cases ha : acc.lookup (String.mk (p.1.data.take 4)) with
        | none => simp [ha]
        | some m => simp [ha, List.append_assoc]
      · have hf : (String.mk (p.1.data.take 4) == y) = false := by
          rw [beq_eq_false_iff_ne]
          exact fun he => hy he.symm
        rw [if_neg hy]
        simp only [List.filter, hf]

theorem groupByYear_lookup (rates : List (String × StoredRec)) (y : String) :
    (groupByYear rates).lookup y =
      if rates.filter (fun p => String.mk (p.1.data.take 4) == y) = [] then none
      else some (rates.filter (fun p => String.mk (p.1.data.take 4) == y)) := by
  unfold groupByYear
  rw [group_foldl_lookup rates [] y]
  cases hfl : rates.filter (fun p => String.mk (p.1.data.take 4) == y) with
  | nil => simp [List.lookup]
  | cons q l => simp [List.lookup]

theorem lookup_map_snd {α β : Type} (f : α → β) (l : List (String × α)) (k : String) :
    ((l.map (fun p => (p.1, f p.2))).lookup k) = (l.lookup k).map f := by
  induction l with
  | nil => simp [List.lookup]
  | cons p l ih =>
      obtain ⟨a, v⟩ := p
      simp only [List.map]
      rw [lookup_cons, lookup_cons]
      by_cases hk : k = a
      · rw [if_pos hk, if_pos hk]
        rfl
      · rw [if_neg hk, if_neg hk, ih]

theorem save_lookup (rates : List (String × StoredRec)) (y : String) :
    (save_rates_by_year rates).lookup y = ((groupByYear rates).lookup y).map yearFile := by
  unfold save_rates_by_year
  exact lookup_map_snd yearFile (groupByYear rates) y

theorem lookup_filter_agree (rates : List (String × StoredRec))
    (h : (rates.map Prod.fst).Nodup) (f : String × StoredRec → Bool) (d : String)
    (hd : d ∈ (rates.filter f).map Prod.fst) :
    (rates.filter f).lookup d = rates.lookup d := by
  have hsub : (rates.filter f).Sublist rates := List.filter_sublist rates
  have hkeys : ((rates.filter f).map Prod.fst).Sublist (rates.map Prod.fst) :=
    hsub.map Prod.fst
  have hnodupf : ((rates.filter f).map Prod.fst).Nodup := h.sublist hkeys
  rcases List.mem_map.mp hd with ⟨q, hq, hqe⟩
  have hqrates : q ∈ rates := hsub.mem hq
  have h1 : (rates.filter f).lookup q.1 = some q.2 := lookup_of_mem_nodup _ hnodupf q hq
  have h2 : rates.lookup q.1 = some q.2 := lookup_of_mem_nodup _ h q hqrates
  rw [← hqe, h1, h2]

theorem yearFile_congr (l1 l2 : List (String × StoredRec))
    (h1 : (l1.map Prod.fst).Nodup) (hp : l1.Perm l2) : yearFile l1 = yearFile l2 := by
  unfold yearFile
  have hkeys : (l1.map Prod.fst).Perm (l2.map Prod.fst) := hp.map Prod.fst
  rw [sortStrings_eq_of_perm hkeys]
  have hrows : ∀ d ∈ sortStrings (l2.map Prod.fst),
      csvRow d ((l1.lookup d).getD (StoredRec.mk "" "")) =
        csvRow d ((l2.lookup d).getD (StoredRec.mk "" "")) := by
    intro d _
    rw [lookup_eq_of_perm l1 l2 hp h1 d]
  rw [List.map_congr_left hrows]

/-- C7: persisting partitions the ledger by the four-character year prefix of
the date key and rewrites each year's file in full as the fixed header followed
by exactly one row per date of that year in ascending date order; and the
output bytes per partition depend only on the ledger's contents, not on dict
insertion order, so persisting the same ledger twice is byte-identical. -/
theorem c7_partition_rewrite :
    (∀ rates : List (String × StoredRec), (rates.map Prod.fst).Nodup →
      ∀ (y : String) (file : String), (save_rates_by_year rates).lookup y = some file →
      ∃ ds : List String,
        List.Sorted strRel ds ∧ ds.Nodup ∧
        (∀ d : String, d ∈ ds ↔
          d ∈ (rates.filter (fun p => String.mk (p.1.data.take 4) == y)).map Prod.fst) ∧
        file = "date,rate,direction\n" ++
          String.join (ds.map (fun d =>
            csvRow d ((rates.lookup d).getD (StoredRec.mk "" ""))))) ∧
    (∀ rates1 rates2 : List (String × StoredRec), (rates1.map Prod.fst).Nodup →
      rates1.Perm rates2 →
      ∀ y : String,
        (save_rates_by_year rates1).lookup y = (save_rates_by_year rates2).lookup y) := by
  constructor
  · intro rates hnodup y file hfile
    rw [save_lookup, groupByYear_lookup] at hfile
    by_cases hempty : rates.filter (fun p => String.mk (p.1.data.take 4) == y) = []
    · rw [if_pos hempty] at hfile
      exact Option.noConfusion hfile
    · rw [if_neg hempty] at hfile
      have hf : file =
          yearFile (rates.filter (fun p => String.mk (p.1.data.take 4) == y)) := by
        have hfile2 : some (yearFile (rates.filter
            (fun p => String.mk (p.1.data.take 4) == y))) = some file := hfile
        exact (Option.some.inj hfile2).symm
      have hnodupf : ((rates.filter (fun p => String.mk (p.1.data.take 4) == y)).map
          Prod.fst).Nodup :=
        hnodup.sublist ((List.filter_sublist rates).map Prod.fst)
      refine ⟨sortStrings ((rates.filter (fun p => String.mk (p.1.data.take 4) == y)).map
        Prod.fst), sortStrings_sorted _, ?_, ?_, ?_⟩
      · exact ((sortStrings_perm _).nodup_iff).mpr hnodupf
      · intro d
        exact (sortStrings_perm _).mem_iff
      · rw [hf]
        unfold yearFile
        congr 1
        apply congrArg
        apply List.map_congr_left
        intro d hd
        have hdm : d ∈ (rates.filter (fun p => String.mk (p.1.data.take 4) == y)).map
            Prod.fst := (sortStrings_perm _).mem_iff.mp hd
        rw [lookup_filter_agree rates hnodup _ d hdm]
  · intro rates1 rates2 h1 hperm y
    rw [save_lookup, save_lookup, groupByYear_lookup, groupByYear_lookup]
    have hpf : (rates1.filter (fun p => String.mk (p.1.data.take 4) == y)).Perm
        (rates2.filter (fun p => String.mk (p.1.data.take 4) == y)) := hperm.filter _
    by_cases he : rates1.filter (fun p => String.mk (p.1.data.take 4) == y) = []
    · have he2 : rates2.filter (fun p => String.mk (p.1.data.take 4) == y) = [] := by
        rw [he] at hpf
        exact (List.Perm.eq_nil hpf.symm)
      rw [if_pos he, if_pos he2]
    · have he2 : ¬ rates2.filter (fun p => String.mk (p.1.data.take 4) == y) = [] := by
        intro h2
        rw [h2] at hpf
        exact he (List.Perm.eq_nil hpf)
      rw [if_neg he, if_neg he2]
      have hnodupf : ((rates1.filter (fun p => String.mk (p.1.data.take 4) == y)).map
          Prod.fst).Nodup :=
        h1.sublist ((List.filter_sublist rates1).map Prod.fst)
      simp only [Option.map_some']
      rw [yearFile_congr _ _ hnodupf hpf]

/-- C7 witness: the structural clause applied to a concrete three-record
ledger for the 2024 partition, and byte-identical output for the same ledger
given in a different insertion order. -/
theorem c7_partition_rewrite_witness :
    (∃ ds : List String,
      List.Sorted strRel ds ∧ ds.Nodup ∧
      (∀ d : String, d ∈ ds ↔
        d ∈ (c7RatesA.filter (fun p => String.mk (p.1.data.take 4) == ("2024"))).map
          Prod.fst) ∧
      yearFile (c7RatesA.filter (fun p => String.mk (p.1.data.take 4) == ("2024"))) =
        "date,rate,direction\n" ++
        String.join (ds.map (fun d =>
          csvRow d ((c7RatesA.lookup d).getD (StoredRec.mk "" ""))))) ∧
    (save_rates_by_year c7RatesA).lookup ("2024") =
      (save_rates_by_year c7RatesB).lookup ("2024") :=
  ⟨c7_partition_rewrite.1 c7RatesA (by decide) ("2024")
    (yearFile (c7RatesA.filter (fun p => String.mk (p.1.data.take 4) == ("2024"))))
    (by decide),
   c7_partition_rewrite.2 c7RatesA c7RatesB (by decide) (by decide) ("2024")⟩
